import Mathlib

set_option maxRecDepth 8000

/-!
Verification of the cv-parser pipeline (`src/cv_parser_gradio/cv_parser.py`):
the per-format text extractor `extract_text`, the structured-output client
`llm_extract_resume`, and the driver `parse_any_resume_to_json`.

Modelling conventions, used throughout:
* Python `bytes` is `List Nat` (byte values), Python `str` is `String`.
* A raised exception is a value of `PyErr`, keyed by the Python exception
  class together with its message (for `json.JSONDecodeError`, the document).
* The external collaborators — the optional PDF/DOCX/DOC libraries, the
  filesystem, and the OpenAI endpoint — are explicit parameters, so a run of
  the pipeline is a pure function of the program inputs and those parameters.
* Codecs (`utf-8` strict and `errors="ignore"`, `latin-1`, `cp1252`,
  `iso-8859-1`, `utf-16`) are implemented byte for byte after CPython's,
  including the rejection of overlong forms and surrogates; `none` models
  `UnicodeDecodeError`.  Text-mode reads apply universal-newline translation
  as CPython does.
* `json.dump(..., indent=2, ensure_ascii=False)` and `json.loads` are
  implemented after CPython's `json` module on the values the pipeline can
  produce; `float` literals are outside the model (no claim mentions them,
  and the resume schema types every leaf as string or null).
-/

namespace CvParser

/-- Python `bytes`: a list of byte values. -/
abbrev Bytes := List Nat

/-- The Python exceptions raised or caught by the pipeline, keyed by
exception class and payload. -/
inductive PyErr where
  | importError (msg : String)
  | valueError (msg : String)
  | runtimeError (msg : String)
  | jsonDecodeError (doc : String)
  | fileNotFound (path : String)
  deriving Repr, DecidableEq

/-! ## String helpers: `str.lower`, `pathlib` suffix, `str.strip`,
universal newlines -/

/-- `str.lower` on the characters the dispatch compares (ASCII letters map
to lowercase; other characters are untouched). -/
def asciiLowerChar (c : Char) : Char :=
  if 'A' ≤ c ∧ c ≤ 'Z' then Char.ofNat (c.toNat + 32) else c

/-- `str.lower` as applied to the extension in `extract_text`. -/
def asciiLower (s : String) : String := String.mk (s.data.map asciiLowerChar)

/-- The last `/`-separated component of a path, ignoring trailing slashes:
`pathlib.PurePosixPath(p).name` for ordinary names. -/
def pathBaseName (p : String) : List Char :=
  ((p.data.reverse.dropWhile (· = '/')).takeWhile (· ≠ '/')).reverse

/-- `pathlib.Path(p).suffix`: the final extension of the last component;
`""` when the name has no dot, or the only dot is its first or last
character. -/
def pathSuffix (p : String) : String :=
  let revName := (pathBaseName p).reverse
  let revExt := revName.takeWhile (· ≠ '.')
  match revName.dropWhile (· ≠ '.') with
  | [] => ""
  | _ :: revStem =>
    if revStem = [] then ""
    else if revExt = [] then ""
    else String.mk ('.' :: revExt.reverse)

/-- The characters `str.strip()` removes: CPython's whitespace set. -/
def pyIsSpace (c : Char) : Bool :=
  c ∈ ['\t', '\n', '\x0b', '\x0c', '\r', '\x1c', '\x1d', '\x1e', '\x1f', ' ',
       '\x85', '\xa0', ' ', ' ', ' ', ' ', ' ',
       ' ', ' ', ' ', ' ', ' ', ' ', ' ',
       ' ', ' ', ' ', ' ', '　']

/-- Python `str.strip()` with no argument. -/
def pyStrip (s : String) : String :=
  String.mk (((s.data.dropWhile pyIsSpace).reverse.dropWhile pyIsSpace).reverse)

/-- Universal-newline translation, character by character; the flag records
that the previous character was a `'\r'` (whose `'\n'` was already
emitted), so a following `'\n'` is absorbed. -/
def univNewlinesAux : Bool → List Char → List Char
  | _, [] => []
  | afterCR, c :: cs =>
    if c = '\r' then '\n' :: univNewlinesAux true cs
    else if c = '\n' then
      if afterCR then univNewlinesAux false cs
      else '\n' :: univNewlinesAux false cs
    else c :: univNewlinesAux false cs

/-- Universal-newline translation applied by a text-mode `open(..., "r")`
read: `"\r\n"` and a bare `"\r"` both become `"\n"`. -/
def univNewlines (cs : List Char) : List Char := univNewlinesAux false cs

/-- `univNewlines` on a `String`. -/
def univNewlinesStr (s : String) : String := String.mk (univNewlines s.data)

/-! ## UTF-8, after CPython: strict decoding rejects overlong forms,
surrogates and scalars above U+10FFFF; `errors="ignore"` drops each
maximal invalid chunk. -/

/-- One UTF-8 encoded scalar value (1–4 bytes). -/
def utf8EncodeChar (c : Char) : Bytes :=
  let n := c.toNat
  if n < 0x80 then [n]
  else if n < 0x800 then [0xC0 + n / 64, 0x80 + n % 64]
  else if n < 0x10000 then [0xE0 + n / 4096, 0x80 + n / 64 % 64, 0x80 + n % 64]
  else [0xF0 + n / 262144, 0x80 + n / 4096 % 64, 0x80 + n / 64 % 64, 0x80 + n % 64]

/-- `s.encode("utf-8")`. -/
def utf8Encode (s : String) : Bytes := s.data.flatMap utf8EncodeChar

/-- Decode one UTF-8 sequence with first byte `b0` and remaining input
`rest`.  On success, the scalar together with how many bytes of `rest`
belong to the sequence; on an invalid sequence, `none` together with the
length of the maximal valid prefix after `b0` (the bytes CPython's error
handler consumes along with `b0`). -/
def utf8DecodeOne (b0 : Nat) (rest : Bytes) : Option Char × Nat :=
  if b0 < 0x80 then (some (Char.ofNat b0), 0)
  else if b0 < 0xC2 then (none, 0)
  else if b0 < 0xE0 then
    match rest with
    | b1 :: _ =>
      if 0x80 ≤ b1 ∧ b1 < 0xC0 then
        (some (Char.ofNat ((b0 - 0xC0) * 64 + (b1 - 0x80))), 1)
      else (none, 0)
    | [] => (none, 0)
  else if b0 < 0xF0 then
    let lo1 := if b0 = 0xE0 then 0xA0 else 0x80
    let hi1 := if b0 = 0xED then 0xA0 else 0xC0
    match rest with
    | b1 :: rest1 =>
      if lo1 ≤ b1 ∧ b1 < hi1 then
        match rest1 with
        | b2 :: _ =>
          if 0x80 ≤ b2 ∧ b2 < 0xC0 then
            (some (Char.ofNat ((b0 - 0xE0) * 4096 + (b1 - 0x80) * 64 + (b2 - 0x80))), 2)
          else (none, 1)
        | [] => (none, 1)
      else (none, 0)
    | [] => (none, 0)
  else if b0 < 0xF5 then
    let lo1 := if b0 = 0xF0 then 0x90 else 0x80
    let hi1 := if b0 = 0xF4 then 0x90 else 0xC0
    match rest with
    | b1 :: rest1 =>
      if lo1 ≤ b1 ∧ b1 < hi1 then
        match rest1 with
        | b2 :: rest2 =>
          if 0x80 ≤ b2 ∧ b2 < 0xC0 then
            match rest2 with
            | b3 :: _ =>
              if 0x80 ≤ b3 ∧ b3 < 0xC0 then
                (some (Char.ofNat ((b0 - 0xF0) * 262144 + (b1 - 0x80) * 4096 +
                        (b2 - 0x80) * 64 + (b3 - 0x80))), 3)
              else (none, 2)
            | [] => (none, 2)
          else (none, 1)
        | [] => (none, 1)
      else (none, 0)
    | [] => (none, 0)
  else (none, 0)

/-- The strict decode loop; each step consumes at least one byte, so fuel
equal to the byte count never runs out. -/
def utf8DecodeStrictLoop : Nat → Bytes → Option (List Char)
  | _, [] => some []
  | 0, _ :: _ => none
  | fuel + 1, b :: rest =>
    match utf8DecodeOne b rest with
    | (some c, k) => (utf8DecodeStrictLoop fuel (rest.drop k)).map (c :: ·)
    | (none, _) => none

/-- `bytes.decode("utf-8")` (strict); `none` models `UnicodeDecodeError`. -/
def decodeUtf8 (bs : Bytes) : Option String :=
  (utf8DecodeStrictLoop bs.length bs).map String.mk

/-- The `errors="ignore"` decode loop: every maximal invalid chunk is
dropped; never fails. -/
def utf8DecodeIgnoreLoop : Nat → Bytes → List Char
  | _, [] => []
  | 0, _ :: _ => []
  | fuel + 1, b :: rest =>
    match utf8DecodeOne b rest with
    | (some c, k) => c :: utf8DecodeIgnoreLoop fuel (rest.drop k)
    | (none, k) => utf8DecodeIgnoreLoop fuel (rest.drop k)

/-- `bytes.decode("utf-8", errors="ignore")`. -/
def decodeUtf8Ignore (bs : Bytes) : String :=
  String.mk (utf8DecodeIgnoreLoop bs.length bs)

/-! ## The other codecs `extract_text` tries for `.txt` files -/

/-- `bytes.decode("latin-1")` to characters: total, byte `b` maps to
scalar `b`. -/
def latin1DecodeList (bs : Bytes) : List Char := bs.map Char.ofNat

/-- `bytes.decode("latin-1")`: never fails. -/
def decodeLatin1 (bs : Bytes) : Option String := some (String.mk (latin1DecodeList bs))

/-- The Windows-1252 mapping for bytes 0x80–0x9F; `none` for the five
unassigned bytes, on which `bytes.decode("cp1252")` raises. -/
def cp1252Hi : Nat → Option Nat
  | 0x80 => some 0x20AC
  | 0x82 => some 0x201A
  | 0x83 => some 0x0192
  | 0x84 => some 0x201E
  | 0x85 => some 0x2026
  | 0x86 => some 0x2020
  | 0x87 => some 0x2021
  | 0x88 => some 0x02C6
  | 0x89 => some 0x2030
  | 0x8A => some 0x0160
  | 0x8B => some 0x2039
  | 0x8C => some 0x0152
  | 0x8E => some 0x017D
  | 0x91 => some 0x2018
  | 0x92 => some 0x2019
  | 0x93 => some 0x201C
  | 0x94 => some 0x201D
  | 0x95 => some 0x2022
  | 0x96 => some 0x2013
  | 0x97 => some 0x2014
  | 0x98 => some 0x02DC
  | 0x99 => some 0x2122
  | 0x9A => some 0x0161
  | 0x9B => some 0x203A
  | 0x9C => some 0x0153
  | 0x9E => some 0x017E
  | 0x9F => some 0x0178
  | _ => none

/-- One byte under `cp1252`. -/
def cp1252DecodeByte (b : Nat) : Option Char :=
  if b < 0x80 ∨ (0xA0 ≤ b ∧ b < 0x100) then some (Char.ofNat b)
  else (cp1252Hi b).map Char.ofNat

/-- `bytes.decode("cp1252")`. -/
def decodeCp1252 (bs : Bytes) : Option String :=
  (bs.mapM cp1252DecodeByte).map String.mk

/-- `iso-8859-1` is an alias of `latin-1` in CPython. -/
def decodeIso8859_1 : Bytes → Option String := decodeLatin1

/-- Pair bytes into 16-bit units, little-endian; `none` on odd length. -/
def utf16UnitsLE : Bytes → Option (List Nat)
  | [] => some []
  | [_] => none
  | a :: b :: rest => (utf16UnitsLE rest).map (fun us => (b * 256 + a) :: us)

/-- Pair bytes into 16-bit units, big-endian; `none` on odd length. -/
def utf16UnitsBE : Bytes → Option (List Nat)
  | [] => some []
  | [_] => none
  | a :: b :: rest => (utf16UnitsBE rest).map (fun us => (a * 256 + b) :: us)

/-- Combine UTF-16 code units into scalars, pairing surrogates; `none` on a
lone surrogate (`UnicodeDecodeError`). -/
def utf16Combine : List Nat → Option (List Char)
  | [] => some []
  | u :: us =>
    if u < 0xD800 ∨ 0xE000 ≤ u then (utf16Combine us).map (Char.ofNat u :: ·)
    else if u < 0xDC00 then
      match us with
      | v :: us2 =>
        if 0xDC00 ≤ v ∧ v < 0xE000 then
          (utf16Combine us2).map
            (Char.ofNat (0x10000 + (u - 0xD800) * 1024 + (v - 0xDC00)) :: ·)
        else none
      | [] => none
    else none

/-- `bytes.decode("utf-16")`: honour a BOM, default to little-endian. -/
def decodeUtf16 (bs : Bytes) : Option String :=
  match bs with
  | 0xFF :: 0xFE :: rest => ((utf16UnitsLE rest).bind utf16Combine).map String.mk
  | 0xFE :: 0xFF :: rest => ((utf16UnitsBE rest).bind utf16Combine).map String.mk
  | _ => ((utf16UnitsLE bs).bind utf16Combine).map String.mk

/-! ## Encoders for the candidate encodings (used to state round-trip
properties of the `.txt` branch) -/

/-- Characters to Latin-1 bytes; `none` models `UnicodeEncodeError` on a
character above U+00FF. -/
def encodeLatin1Chars : List Char → Option Bytes
  | [] => some []
  | c :: cs =>
    if c.toNat < 0x100 then (encodeLatin1Chars cs).map (c.toNat :: ·) else none

/-- Python `s.encode("latin-1")`. -/
def encodeLatin1 (s : String) : Option Bytes := encodeLatin1Chars s.data

/-- Python `s.encode("iso-8859-1")`, an alias of `latin-1`. -/
def encodeIso8859_1 : String → Option Bytes := encodeLatin1

/-- One character under `s.encode("cp1252")`. -/
def cp1252EncodeChar (c : Char) : Option Nat :=
  let n := c.toNat
  if n < 0x80 then some n
  else match n with
    | 0x20AC => some 0x80
    | 0x201A => some 0x82
    | 0x0192 => some 0x83
    | 0x201E => some 0x84
    | 0x2026 => some 0x85
    | 0x2020 => some 0x86
    | 0x2021 => some 0x87
    | 0x02C6 => some 0x88
    | 0x2030 => some 0x89
    | 0x0160 => some 0x8A
    | 0x2039 => some 0x8B
    | 0x0152 => some 0x8C
    | 0x017D => some 0x8E
    | 0x2018 => some 0x91
    | 0x2019 => some 0x92
    | 0x201C => some 0x93
    | 0x201D => some 0x94
    | 0x2022 => some 0x95
    | 0x2013 => some 0x96
    | 0x2014 => some 0x97
    | 0x02DC => some 0x98
    | 0x2122 => some 0x99
    | 0x0161 => some 0x9A
    | 0x203A => some 0x9B
    | 0x0153 => some 0x9C
    | 0x017E => some 0x9E
    | 0x0178 => some 0x9F
    | _ => if 0xA0 ≤ n ∧ n < 0x100 then some n else none

/-- Python `s.encode("cp1252")`. -/
def encodeCp1252 (s : String) : Option Bytes := s.data.mapM cp1252EncodeChar

/-- One character as little-endian UTF-16 code-unit bytes. -/
def utf16EncodeChar (c : Char) : Bytes :=
  let n := c.toNat
  if n < 0x10000 then [n % 256, n / 256]
  else
    let m := n - 0x10000
    let hi := 0xD800 + m / 1024
    let lo := 0xDC00 + m % 1024
    [hi % 256, hi / 256, lo % 256, lo / 256]

/-- Python `s.encode("utf-16")`: a little-endian BOM, then little-endian
code units. -/
def encodeUtf16 (s : String) : Bytes := 0xFF :: 0xFE :: s.data.flatMap utf16EncodeChar

/-! ## The `.txt` branch and the DOCX rendering of `extract_text` -/

/-- The ordered candidate decoders the `.txt` branch tries:
`("utf-8", "latin-1", "cp1252", "iso-8859-1", "utf-16")`. -/
def txtCandidates : List (Bytes → Option String) :=
  [decodeUtf8, decodeLatin1, decodeCp1252, decodeIso8859_1, decodeUtf16]

/-- Return the first candidate's successful decode, in order. -/
def firstSuccess : List (Bytes → Option String) → Bytes → Option String
  | [], _ => none
  | d :: ds, bs =>
    match d bs with
    | some s => some s
    | none => firstSuccess ds bs

/-- The `.txt` branch of `extract_text`: try the candidate encodings in
order with text-mode reads (universal newlines applied to the decoded
text); if every candidate raises, reread in binary and decode as UTF-8
with `errors="ignore"`. -/
def txtExtract (bs : Bytes) : String :=
  match firstSuccess txtCandidates bs with
  | some s => univNewlinesStr s
  | none => decodeUtf8Ignore bs

/-- A table as `python-docx` presents it: rows of cell texts. -/
structure DocxTable where
  rows : List (List String)
  deriving Repr, DecidableEq

/-- A document as `python-docx` presents it to `extract_text`. -/
structure DocxDocument where
  paragraphs : List String
  tables : List DocxTable
  deriving Repr, DecidableEq

/-- The DOCX branch: paragraph texts joined with `"\n"`, then for every row
of every table a `"\n"` plus the tab-joined cell texts, appended in order. -/
def docxRender (d : DocxDocument) : String :=
  let text := String.intercalate "\n" d.paragraphs
  d.tables.foldl
    (fun text table =>
      table.rows.foldl (fun text row => text ++ "\n" ++ String.intercalate "\t" row) text)
    text

/-! ## `extract_text` -/

/-- The optional third-party capabilities `extract_text` probes, each a
function of the file path; `none` means the library is not importable.
`fitz`/`pypdf2` return the per-page texts (`page.get_text()`, respectively
`p.extract_text() or ""`), `docx` the opened document, `textract` the raw
bytes of `textract.process(file_path)`. -/
structure ExtractCaps where
  fitz : Option (String → Except PyErr (List String))
  pypdf2 : Option (String → Except PyErr (List String))
  docx : Option (String → Except PyErr DocxDocument)
  textract : Option (String → Except PyErr Bytes)

/-- A filesystem: a path maps to the file's bytes when the file exists. -/
def FileSys := String → Option Bytes

/-- `extract_text(file_path)` of `cv_parser.py`: dispatch on the lowercased
`pathlib` suffix; four format handlers; otherwise
`ValueError(f"Unsupported file type: ...")`. -/
def extract_text (caps : ExtractCaps) (fs : FileSys) (file_path : String) :
    Except PyErr String :=
  let ext := asciiLower (pathSuffix file_path)
  if ext = ".pdf" then
    match caps.fitz with
    | some getPages => (getPages file_path).map String.join
    | none =>
      match caps.pypdf2 with
      | some getPages => (getPages file_path).map String.join
      | none =>
        .error (.importError "Install a PDF library: pip install pymupdf or pip install PyPDF2")
  else if ext = ".docx" then
    match caps.docx with
    | some openDoc => (openDoc file_path).map docxRender
    | none => .error (.importError "Install: pip install python-docx to parse DOCX files.")
  else if ext = ".doc" then
    match caps.textract with
    | some process => (process file_path).map decodeUtf8Ignore
    | none => .error (.importError "Install: pip install textract to parse legacy .doc files.")
  else if ext = ".txt" then
    match fs file_path with
    | some bs => .ok (txtExtract bs)
    | none => .error (.fileNotFound file_path)
  else
    .error (.valueError ("Unsupported file type: " ++ ext ++
      " (supported: .pdf, .docx, .doc, .txt)"))

/-! ## JSON values

The values `json.loads` can build and `json.dump` can write, except
`float`, which no claim mentions and which the resume schema excludes
(every leaf is string or null). -/

/-- A JSON value (integers only; a `float` literal is outside the model). -/
inductive Json where
  | null
  | bool (b : Bool)
  | num (n : Int)
  | str (s : String)
  | arr (elems : List Json)
  | obj (members : List (String × Json))
  deriving Repr

/-! ## `json.dump(..., indent=2, ensure_ascii=False)` -/

/-- A lowercase hexadecimal digit, as `json`'s `\uXXXX` escapes use. -/
def hexDigit (n : Nat) : Char :=
  if n < 10 then Char.ofNat ('0'.toNat + n) else Char.ofNat ('a'.toNat + (n - 10))

/-- The indent prefix at nesting depth `d`: `' ' * (2 * d)`. -/
def jpad (d : Nat) : String := String.mk (List.replicate (2 * d) ' ')

/-- One character inside a JSON string literal, as CPython writes it with
`ensure_ascii=False`: quote, backslash and the five short escapes; other
control characters as `\u00xx`; everything else — non-ASCII included —
literally. -/
def jsonEscapeChar (c : Char) : List Char :=
  if c = '"' then ['\\', '"']
  else if c = '\\' then ['\\', '\\']
  else if c = '\n' then ['\\', 'n']
  else if c = '\t' then ['\\', 't']
  else if c = '\r' then ['\\', 'r']
  else if c = '\x08' then ['\\', 'b']
  else if c = '\x0c' then ['\\', 'f']
  else if c.toNat < 0x20 then
    ['\\', 'u', '0', '0', hexDigit (c.toNat / 16), hexDigit (c.toNat % 16)]
  else [c]

/-- A JSON string literal. -/
def jsonDumpStr (s : String) : String :=
  String.mk ('"' :: (s.data.flatMap jsonEscapeChar ++ ['"']))

mutual

/-- `json.dumps(v, indent=2, ensure_ascii=False)` at nesting depth `d`
(the separators of an indented dump are `(',', ': ')`). -/
def jsonDump : Nat → Json → String
  | _, .null => "null"
  | _, .bool true => "true"
  | _, .bool false => "false"
  | _, .num n => toString n
  | _, .str s => jsonDumpStr s
  | _, .arr [] => "[]"
  | d, .arr (x :: xs) =>
    "[\n" ++ jpad (d + 1) ++ jsonDump (d + 1) x ++ jsonDumpArrTail (d + 1) xs ++
      "\n" ++ jpad d ++ "]"
  | _, .obj [] => "\x7b\x7d"
  | d, .obj ((k, v) :: kvs) =>
    "\x7b\n" ++ jpad (d + 1) ++ jsonDumpStr k ++ ": " ++ jsonDump (d + 1) v ++
      jsonDumpObjTail (d + 1) kvs ++ "\n" ++ jpad d ++ "\x7d"

/-- The `",\n" ++ indent ++ item` tail of a non-empty array dump. -/
def jsonDumpArrTail : Nat → List Json → String
  | _, [] => ""
  | d, y :: ys => ",\n" ++ jpad d ++ jsonDump d y ++ jsonDumpArrTail d ys

/-- The `",\n" ++ indent ++ member` tail of a non-empty object dump. -/
def jsonDumpObjTail : Nat → List (String × Json) → String
  | _, [] => ""
  | d, (k, v) :: kvs =>
    ",\n" ++ jpad d ++ jsonDumpStr k ++ ": " ++ jsonDump d v ++ jsonDumpObjTail d kvs

end

/-- `json.dumps(v, indent=2, ensure_ascii=False)`, depth 0 — exactly what
`json.dump` writes to the output file. -/
def jsonDumps (v : Json) : String := jsonDump 0 v

/-! ## `json.loads` -/

/-- The whitespace `json.loads` skips between tokens. -/
def jsonWs (c : Char) : Bool := c = ' ' || c = '\t' || c = '\n' || c = '\r'

/-- Skip inter-token whitespace. -/
def skipWs (cs : List Char) : List Char := cs.dropWhile jsonWs

/-- The value of one hexadecimal digit. -/
def hexVal (c : Char) : Option Nat :=
  if '0' ≤ c ∧ c ≤ '9' then some (c.toNat - '0'.toNat)
  else if 'a' ≤ c ∧ c ≤ 'f' then some (c.toNat - 'a'.toNat + 10)
  else if 'A' ≤ c ∧ c ≤ 'F' then some (c.toNat - 'A'.toNat + 10)
  else none

/-- The value of one single-character escape (`\\x` for `x` here). -/
def jsonEscCode (e : Char) : Option Char :=
  if e = '"' then some '"'
  else if e = '\\' then some '\\'
  else if e = '/' then some '/'
  else if e = 'b' then some '\x08'
  else if e = 'f' then some '\x0c'
  else if e = 'n' then some '\n'
  else if e = 'r' then some '\r'
  else if e = 't' then some '\t'
  else none

/-- Four hexadecimal digits to their value. -/
def hex4 (h1 h2 h3 h4 : Char) : Option Nat :=
  match hexVal h1, hexVal h2, hexVal h3, hexVal h4 with
  | some d1, some d2, some d3, some d4 => some (((d1 * 16 + d2) * 16 + d3) * 16 + d4)
  | _, _, _, _ => none

/-- Resolve one escape sequence (the input starts after the backslash):
the decoded character and the remaining input.  `\u` escapes of a high
and a low surrogate combine into one scalar, as CPython's `py_scanstring`
does.  CPython would keep an unpaired surrogate escape as a lone
surrogate in the `str`; a Lean `Char` (a Unicode scalar value) cannot
hold one, so that case is modelled as failure — it cannot arise from
output this pipeline wrote. -/
def jsonScanEscape (cs : List Char) : Option (Char × List Char) :=
  match cs with
  | [] => none
  | 'u' :: h1 :: h2 :: h3 :: h4 :: cs2 =>
    match hex4 h1 h2 h3 h4 with
    | some n =>
      if n < 0xD800 ∨ 0xE000 ≤ n then some (Char.ofNat n, cs2)
      else if n < 0xDC00 then
        match cs2 with
        | '\\' :: 'u' :: g1 :: g2 :: g3 :: g4 :: cs3 =>
          match hex4 g1 g2 g3 g4 with
          | some m =>
            if 0xDC00 ≤ m ∧ m < 0xE000 then
              some (Char.ofNat (0x10000 + (n - 0xD800) * 1024 + (m - 0xDC00)), cs3)
            else none
          | none => none
        | _ => none
      else none
    | none => none
  | e :: cs1 =>
    match jsonEscCode e with
    | some ec => some (ec, cs1)
    | none => none

/-- The body of a JSON string literal, after the opening quote, as
CPython's `py_scanstring` reads it in strict mode: an unescaped control
character is an error.  Fuel decreases once per produced character; the
callers pass one more than the input length, which can never run out. -/
def jsonParseStringBody : Nat → List Char → Option (List Char × List Char)
  | _, [] => none
  | 0, _ :: _ => none
  | fuel + 1, c :: cs =>
    if c = '"' then some ([], cs)
    else if c = '\\' then
      match jsonScanEscape cs with
      | some (ec, cs1) => (jsonParseStringBody fuel cs1).map (fun p => (ec :: p.1, p.2))
      | none => none
    else if c.toNat < 0x20 then none
    else (jsonParseStringBody fuel cs).map (fun p => (c :: p.1, p.2))

/-- Decimal digits to a `Nat`. -/
def digitsToNat (ds : List Char) : Nat :=
  ds.foldl (fun a c => a * 10 + (c.toNat - '0'.toNat)) 0

/-- An integer literal, as the decoder's number regex
`-?(0|[1-9][0-9]*)` reads it; a following `.`, `e` or `E` would make a
`float`, which is outside this model, so it is refused rather than
misread. -/
def jsonParseNumber (cs : List Char) : Option (Json × List Char) :=
  let (neg, cs1) :=
    match cs with
    | '-' :: r => (true, r)
    | _ => (false, cs)
  let ds := cs1.takeWhile Char.isDigit
  let rest := cs1.dropWhile Char.isDigit
  match ds with
  | [] => none
  | '0' :: _ :: _ => none
  | _ =>
    match rest with
    | '.' :: _ => none
    | 'e' :: _ => none
    | 'E' :: _ => none
    | _ =>
      let n : Int := Int.ofNat (digitsToNat ds)
      some (.num (if neg then -n else n), rest)

/-- Insert one member as a Python `dict` does: an existing key keeps its
position and takes the new value, a new key is appended. -/
def jsonObjInsert (kvs : List (String × Json)) (k : String) (v : Json) :
    List (String × Json) :=
  if kvs.any (fun kv => kv.1 == k) then
    kvs.map (fun kv => if kv.1 == k then (k, v) else kv)
  else kvs ++ [(k, v)]

/-- Fold parsed members into a `dict`, a later duplicate overwriting. -/
def jsonBuildObj (kvs : List (String × Json)) : List (String × Json) :=
  kvs.foldl (fun acc kv => jsonObjInsert acc kv.1 kv.2) []

mutual

/-- One JSON value, after CPython's scanner: skip whitespace, dispatch on
the first character.  `fuel` bounds the recursion; `jsonLoads` supplies
more than any valid input can consume. -/
def jsonParseVal : Nat → List Char → Option (Json × List Char)
  | 0, _ => none
  | fuel + 1, cs =>
    match skipWs cs with
    | [] => none
    | c :: cs1 =>
      if c = 'n' then
        match cs1 with
        | 'u' :: 'l' :: 'l' :: rest => some (.null, rest)
        | _ => none
      else if c = 't' then
        match cs1 with
        | 'r' :: 'u' :: 'e' :: rest => some (.bool true, rest)
        | _ => none
      else if c = 'f' then
        match cs1 with
        | 'a' :: 'l' :: 's' :: 'e' :: rest => some (.bool false, rest)
        | _ => none
      else if c = '"' then
        (jsonParseStringBody (cs1.length + 1) cs1).map (fun p => (.str (String.mk p.1), p.2))
      else if c = '[' then
        if (skipWs cs1).head? = some ']' then some (.arr [], (skipWs cs1).tail)
        else (jsonParseItems fuel cs1).map (fun p => (.arr p.1, p.2))
      else if c = '\x7b' then
        if (skipWs cs1).head? = some '\x7d' then some (.obj [], (skipWs cs1).tail)
        else (jsonParseMembers fuel cs1).map (fun p => (.obj (jsonBuildObj p.1), p.2))
      else jsonParseNumber (c :: cs1)

/-- The comma-separated values of a non-empty array, then `]`. -/
def jsonParseItems : Nat → List Char → Option (List Json × List Char)
  | 0, _ => none
  | fuel + 1, cs =>
    match jsonParseVal fuel cs with
    | none => none
    | some (v, rest) =>
      match skipWs rest with
      | [] => none
      | c :: rest1 =>
        if c = ']' then some ([v], rest1)
        else if c = ',' then
          match jsonParseItems fuel rest1 with
          | some (vs, rest2) => some (v :: vs, rest2)
          | none => none
        else none

/-- The `"key": value` members of a non-empty object, then the closing
brace. -/
def jsonParseMembers : Nat → List Char → Option (List (String × Json) × List Char)
  | 0, _ => none
  | fuel + 1, cs =>
    match skipWs cs with
    | [] => none
    | c :: cs1 =>
      if c = '"' then
        match jsonParseStringBody (cs1.length + 1) cs1 with
        | none => none
        | some (k, rest) =>
          match skipWs rest with
          | [] => none
          | c2 :: rest1 =>
            if c2 = ':' then
              match jsonParseVal fuel rest1 with
              | none => none
              | some (v, rest2) =>
                match skipWs rest2 with
                | [] => none
                | c3 :: rest3 =>
                  if c3 = '\x7d' then some ([(String.mk k, v)], rest3)
                  else if c3 = ',' then
                    match jsonParseMembers fuel rest3 with
                    | some (kvs, rest4) => some ((String.mk k, v) :: kvs, rest4)
                    | none => none
                  else none
            else none
      else none

end

/-- `json.loads`: one value, then nothing but whitespace; `none` models
`json.JSONDecodeError`. -/
def jsonLoads (s : String) : Option Json :=
  match jsonParseVal (s.data.length + 1) s.data with
  | some (v, rest) => if skipWs rest = [] then some v else none
  | none => none

/-! ## The structured-output client `llm_extract_resume` -/

/-- The schema literal of `cv_parser.py`, as a JSON value. -/
def resumeSchema : Json :=
  .obj [
    ("type", .str "object"),
    ("additionalProperties", .bool false),
    ("properties", .obj [
      ("name", .obj [("type", .str "string")]),
      ("email", .obj [("type", .arr [.str "string", .str "null"])]),
      ("phone", .obj [("type", .arr [.str "string", .str "null"])]),
      ("linkedin", .obj [("type", .arr [.str "string", .str "null"])]),
      ("summary", .obj [("type", .arr [.str "string", .str "null"])]),
      ("skills", .obj [("type", .str "array"),
        ("items", .obj [("type", .str "string")]), ("minItems", .num 0)]),
      ("experience", .obj [
        ("type", .str "array"), ("minItems", .num 0),
        ("items", .obj [
          ("type", .str "object"),
          ("additionalProperties", .bool false),
          ("properties", .obj [
            ("position", .obj [("type", .str "string")]),
            ("company", .obj [("type", .arr [.str "string", .str "null"])]),
            ("duration", .obj [("type", .arr [.str "string", .str "null"])]),
            ("description", .obj [("type", .str "array"),
              ("items", .obj [("type", .str "string")]), ("minItems", .num 0)])]),
          ("required", .arr [.str "position", .str "company", .str "duration",
            .str "description"])])]),
      ("education", .obj [
        ("type", .str "array"), ("minItems", .num 0),
        ("items", .obj [
          ("type", .str "object"),
          ("additionalProperties", .bool false),
          ("properties", .obj [
            ("degree", .obj [("type", .arr [.str "string", .str "null"])]),
            ("institution", .obj [("type", .arr [.str "string", .str "null"])]),
            ("year", .obj [("type", .arr [.str "string", .str "null"])]),
            ("field", .obj [("type", .arr [.str "string", .str "null"])])]),
          ("required", .arr [.str "degree", .str "institution", .str "year",
            .str "field"])])]),
      ("certificates", .obj [("type", .str "array"),
        ("items", .obj [("type", .str "string")]), ("minItems", .num 0)]),
      ("languages", .obj [("type", .str "array"),
        ("items", .obj [("type", .str "string")]), ("minItems", .num 0)]),
      ("detected_language", .obj [("type", .str "string")])]),
    ("required", .arr [.str "name", .str "email", .str "phone", .str "linkedin",
      .str "summary", .str "skills", .str "experience", .str "education",
      .str "certificates", .str "languages", .str "detected_language"])]

/-- The system instruction. -/
def systemMsg : String :=
  "Extract the resume into a single JSON object that matches the schema exactly; output only valid JSON."

/-- The f-string user payload embedding the resume text and the
normalization rules. -/
def userMsg (resume_text : String) : String :=
  "\nResume:\n\"\"\"" ++ resume_text ++
  "\"\"\"\n\nRules:\n- Detect primary language as ISO-2 (e.g., 'en', 'de', 'tr'); default to 'en' if unclear.\n- Normalize LinkedIn as 'linkedin.com/in/<handle>' when present.\n- Use null for missing fields.\n- Return ONLY valid JSON conforming to the provided schema.\n"

/-- The one chat-completion request an invocation sends. -/
structure ChatRequest where
  model : String
  system : String
  user : String
  schemaName : String
  schema : Json
  strict : Bool
  temperature : Nat

/-- The runtime environment of `llm_extract_resume`: whether `openai`
imported, the `OPENAI_API_KEY` environment variable, and the remote
endpoint, mapping the request to `choices[0].message.content` or to a
raised error. -/
structure LlmEnv where
  openaiAvailable : Bool
  apiKey : Option String
  respond : ChatRequest → Except PyErr String

/-- Python truthiness of `api_key` in `if not api_key`: unset or empty. -/
def keyFalsy : Option String → Bool
  | none => true
  | some s => s == ""

/-- `llm_extract_resume(resume_text)`: the returned record or raised
error, paired with the number of remote calls made. -/
def llm_extract_resume (env : LlmEnv) (resume_text : String) :
    Except PyErr Json × Nat :=
  if env.openaiAvailable = false then
    (.error (.importError "openai package not installed. Run: pip install openai"), 0)
  else if keyFalsy env.apiKey then
    (.error (.runtimeError "OPENAI_API_KEY not set in environment."), 0)
  else
    let req : ChatRequest :=
      { model := "gpt-4o-mini", system := systemMsg, user := userMsg resume_text,
        schemaName := "ResumeSchema", schema := resumeSchema, strict := true,
        temperature := 0 }
    match env.respond req with
    | .error e => (.error e, 1)
    | .ok raw =>
      match jsonLoads raw with
      | some v => (.ok v, 1)
      | none => (.error (.jsonDecodeError raw), 1)

/-! ## The driver `parse_any_resume_to_json` -/

/-- Pointwise update of the filesystem at one path. -/
def fsWrite (fs : FileSys) (path : String) (bs : Bytes) : FileSys :=
  fun p => if p = path then some bs else fs p

/-- `parse_any_resume_to_json(upload_path, out_json)`: the returned path or
raised error, the filesystem afterwards, and the number of remote calls.
The output file is opened and written (UTF-8) only after every fallible
step has succeeded. -/
def parse_any_resume_to_json (caps : ExtractCaps) (env : LlmEnv) (fs : FileSys)
    (upload_path : String) (out_json : String) :
    Except PyErr String × FileSys × Nat :=
  match extract_text caps fs upload_path with
  | .error e => (.error e, fs, 0)
  | .ok text =>
    if text = "" ∨ pyStrip text = "" then
      (.error (.valueError "No text extracted (consider OCR for scanned PDFs)."), fs, 0)
    else
      match llm_extract_resume env text with
      | (.error e, n) => (.error e, fs, n)
      | (.ok data, n) =>
        (.ok out_json, fsWrite fs out_json (utf8Encode (jsonDumps data)), n)

/-- Re-open a written file in text mode as UTF-8 and `json.load` it, as
`gradio_app.py` does to display the parsed result. -/
def readJsonFile (fs : FileSys) (path : String) : Option Json :=
  match fs path with
  | none => none
  | some bs =>
    match decodeUtf8 bs with
    | none => none
    | some s => jsonLoads (univNewlinesStr s)

/-! ## What the resume schema admits

`resumeSchemaValid` spells out, value by value, which documents satisfy
the schema literal: every listed key present with the listed type, no
unlisted key (`additionalProperties: false`), every leaf a string or
null, and no duplicate key — a `dict` decoded by `json.loads` never
holds one. -/

/-- A string leaf. -/
def Json.isStr : Json → Bool
  | .str _ => true
  | _ => false

/-- A string-or-null leaf. -/
def Json.isStrOrNull : Json → Bool
  | .str _ => true
  | .null => true
  | _ => false

/-- An array whose elements all satisfy `p`. -/
def Json.isArrayOf (p : Json → Bool) : Json → Bool
  | .arr xs => xs.all p
  | _ => false

/-- An array of string leaves. -/
def Json.isStrArray : Json → Bool := Json.isArrayOf Json.isStr

/-- No key occurs twice. -/
def keysDistinct : List (String × Json) → Bool
  | [] => true
  | (k, _) :: rest => !(rest.map Prod.fst).contains k && keysDistinct rest

/-- An object against a required-key/type table with
`additionalProperties: false`. -/
def objMatches (kvs : List (String × Json))
    (fields : List (String × (Json → Bool))) : Bool :=
  keysDistinct kvs &&
  kvs.all (fun kv => (fields.map Prod.fst).contains kv.1) &&
  fields.all (fun f =>
    match kvs.lookup f.1 with
    | some v => f.2 v
    | none => false)

/-- One `experience` entry. -/
def expEntryValid : Json → Bool
  | .obj kvs => objMatches kvs
      [("position", Json.isStr), ("company", Json.isStrOrNull),
       ("duration", Json.isStrOrNull), ("description", Json.isStrArray)]
  | _ => false

/-- One `education` entry. -/
def eduEntryValid : Json → Bool
  | .obj kvs => objMatches kvs
      [("degree", Json.isStrOrNull), ("institution", Json.isStrOrNull),
       ("year", Json.isStrOrNull), ("field", Json.isStrOrNull)]
  | _ => false

/-- A record conforming to the resume schema. -/
def resumeSchemaValid : Json → Bool
  | .obj kvs => objMatches kvs
      [("name", Json.isStr), ("email", Json.isStrOrNull),
       ("phone", Json.isStrOrNull), ("linkedin", Json.isStrOrNull),
       ("summary", Json.isStrOrNull), ("skills", Json.isStrArray),
       ("experience", Json.isArrayOf expEntryValid),
       ("education", Json.isArrayOf eduEntryValid),
       ("certificates", Json.isStrArray), ("languages", Json.isStrArray),
       ("detected_language", Json.isStr)]
  | _ => false

/-! ## Predicates and bounds used by the round-trip development -/

mutual

/-- Values in the image of `json.loads`, floats aside: no `num` (kept out
of the model) and no duplicate key in any object — `json.loads` builds
`dict`s, which cannot hold one.  Every schema-valid record is loadable. -/
def Json.loadable : Json → Bool
  | .null => true
  | .bool _ => true
  | .num _ => false
  | .str _ => true
  | .arr xs => Json.loadableList xs
  | .obj kvs => keysDistinct kvs && Json.loadableMembers kvs

/-- `loadable` on every element. -/
def Json.loadableList : List Json → Bool
  | [] => true
  | x :: xs => Json.loadable x && Json.loadableList xs

/-- `loadable` on every member value. -/
def Json.loadableMembers : List (String × Json) → Bool
  | [] => true
  | (_, v) :: kvs => Json.loadable v && Json.loadableMembers kvs

end

mutual

/-- An upper bound on the parser fuel one value consumes. -/
def fuelVal : Json → Nat
  | .arr [] => 1
  | .arr (x :: xs) => 1 + fuelItems (x :: xs)
  | .obj [] => 1
  | .obj ((k, v) :: kvs) => 1 + fuelMembers ((k, v) :: kvs)
  | _ => 1

/-- Fuel bound for the element list of a non-empty array. -/
def fuelItems : List Json → Nat
  | [] => 1
  | x :: xs => 1 + max (fuelVal x) (fuelItems xs)

/-- Fuel bound for the member list of a non-empty object. -/
def fuelMembers : List (String × Json) → Nat
  | [] => 1
  | (_, v) :: kvs => 1 + max (fuelVal v) (fuelMembers kvs)

end

/-! ## Concrete instances exercising the pipeline -/

/-- A minimal schema-valid record, as a stubbed extraction client could
return it. -/
def sampleRecord : Json :=
  .obj [("name", .str "Jos\u00e9"), ("email", .null), ("phone", .null),
        ("linkedin", .null), ("summary", .null), ("skills", .arr []),
        ("experience", .arr []), ("education", .arr []),
        ("certificates", .arr []), ("languages", .arr []),
        ("detected_language", .str "en")]

/-- A client environment whose endpoint answers every request with
`sampleRecord` serialized. -/
def sampleEnv : LlmEnv :=
  { openaiAvailable := true, apiKey := some "sk",
    respond := fun _ => .ok (jsonDumps sampleRecord) }

/-- A filesystem holding one two-byte text file. -/
def sampleFs : FileSys :=
  fun q => if q = "cv.txt" then some (utf8Encode "Hi") else none

end CvParser

namespace CvParser

/-! # Theorems

First the codec facts, then the JSON write/read round trip, then the
claim theorems. -/

/-! ## UTF-8: decoding inverts encoding -/

theorem utf8EncodeChar_one (c : Char) (h : c.toNat < 0x80) :
    utf8EncodeChar c = [c.toNat] := by
  simp only [utf8EncodeChar]
  rw [if_pos h]

theorem utf8EncodeChar_two (c : Char) (h1 : 0x80 ≤ c.toNat) (h2 : c.toNat < 0x800) :
    utf8EncodeChar c = [0xC0 + c.toNat / 64, 0x80 + c.toNat % 64] := by
  simp only [utf8EncodeChar]
  rw [if_neg (by omega), if_pos h2]

theorem utf8EncodeChar_three (c : Char) (h1 : 0x800 ≤ c.toNat) (h2 : c.toNat < 0x10000) :
    utf8EncodeChar c =
      [0xE0 + c.toNat / 4096, 0x80 + c.toNat / 64 % 64, 0x80 + c.toNat % 64] := by
  simp only [utf8EncodeChar]
  rw [if_neg (by omega), if_neg (by omega), if_pos h2]

theorem utf8EncodeChar_four (c : Char) (h1 : 0x10000 ≤ c.toNat) :
    utf8EncodeChar c =
      [0xF0 + c.toNat / 262144, 0x80 + c.toNat / 4096 % 64,
       0x80 + c.toNat / 64 % 64, 0x80 + c.toNat % 64] := by
  simp only [utf8EncodeChar]
  rw [if_neg (by omega), if_neg (by omega), if_neg (by omega)]

theorem utf8DecodeOne_ascii (b : Nat) (h : b < 0x80) (rest : Bytes) :
    utf8DecodeOne b rest = (some (Char.ofNat b), 0) := by
  unfold utf8DecodeOne
  rw [if_pos h]

theorem utf8DecodeOne_two (n : Nat) (h1 : 0x80 ≤ n) (h2 : n < 0x800) (bs : Bytes) :
    utf8DecodeOne (0xC0 + n / 64) ((0x80 + n % 64) :: bs) =
      (some (Char.ofNat n), 1) := by
  unfold utf8DecodeOne
  dsimp only
  split_ifs <;> first | (exfalso; omega) | (congr 3 <;> omega)

theorem utf8DecodeOne_three (n : Nat) (h1 : 0x800 ≤ n) (h2 : n < 0x10000)
    (hs : n < 0xD800 ∨ 0xE000 ≤ n) (bs : Bytes) :
    utf8DecodeOne (0xE0 + n / 4096) ((0x80 + n / 64 % 64) :: (0x80 + n % 64) :: bs) =
      (some (Char.ofNat n), 2) := by
  unfold utf8DecodeOne
  dsimp only
  split_ifs <;> first | (exfalso; omega) | (congr 3 <;> omega)

theorem utf8DecodeOne_four (n : Nat) (h1 : 0x10000 ≤ n) (h2 : n < 0x110000) (bs : Bytes) :
    utf8DecodeOne (0xF0 + n / 262144)
      ((0x80 + n / 4096 % 64) :: (0x80 + n / 64 % 64) :: (0x80 + n % 64) :: bs) =
      (some (Char.ofNat n), 3) := by
  unfold utf8DecodeOne
  dsimp only
  split_ifs <;> first | (exfalso; omega) | (congr 3 <;> omega)

theorem utf8DecodeStrictLoop_encodeChar (c : Char) (bs : Bytes) (fuel : Nat) :
    utf8DecodeStrictLoop (fuel + 1) (utf8EncodeChar c ++ bs) =
      (utf8DecodeStrictLoop fuel bs).map (c :: ·) := by
  have hv : c.toNat < 0xD800 ∨ (0xDFFF < c.toNat ∧ c.toNat < 0x110000) := c.valid
  rcases Nat.lt_or_ge c.toNat 0x80 with h1 | h1
  · rw [utf8EncodeChar_one c h1]
    simp only [List.append_eq, List.cons_append, List.nil_append, utf8DecodeStrictLoop,
      utf8DecodeOne_ascii _ h1, List.drop_zero, Char.ofNat_toNat]
  · rcases Nat.lt_or_ge c.toNat 0x800 with h2 | h2
    · rw [utf8EncodeChar_two c h1 h2]
      simp only [List.append_eq, List.cons_append, List.nil_append, utf8DecodeStrictLoop,
        utf8DecodeOne_two c.toNat h1 h2, Char.ofNat_toNat, List.drop_succ_cons,
        List.drop_zero]
    · rcases Nat.lt_or_ge c.toNat 0x10000 with h3 | h3
      · rw [utf8EncodeChar_three c h2 h3]
        simp only [List.append_eq, List.cons_append, List.nil_append, utf8DecodeStrictLoop,
          utf8DecodeOne_three c.toNat h2 h3 (by omega), Char.ofNat_toNat,
          List.drop_succ_cons, List.drop_zero]
      · rw [utf8EncodeChar_four c h3]
        simp only [List.append_eq, List.cons_append, List.nil_append, utf8DecodeStrictLoop,
          utf8DecodeOne_four c.toNat h3 (by omega), Char.ofNat_toNat,
          List.drop_succ_cons, List.drop_zero]

theorem utf8DecodeStrictLoop_encode (cs : List Char) (fuel : Nat) :
    utf8DecodeStrictLoop (cs.length + fuel) (cs.flatMap utf8EncodeChar) = some cs := by
  induction cs generalizing fuel with
  | nil => cases fuel <;> rfl
  | cons c cs ih =>
    have : (c :: cs).length + fuel = (cs.length + fuel) + 1 := by
      simp [List.length_cons]; omega
    rw [List.flatMap_cons, this, utf8DecodeStrictLoop_encodeChar, ih]
    rfl

theorem utf8EncodeChar_length (c : Char) : 1 ≤ (utf8EncodeChar c).length := by
  unfold utf8EncodeChar
  dsimp only
  split_ifs <;> simp

theorem utf8Encode_length (cs : List Char) :
    cs.length ≤ (cs.flatMap utf8EncodeChar).length := by
  induction cs with
  | nil => simp
  | cons c cs ih =>
    rw [List.flatMap_cons]
    simp only [List.length_append, List.length_cons]
    have := utf8EncodeChar_length c
    omega

/-- UTF-8 text written with `encoding="utf-8"` reads back unchanged. -/
theorem decodeUtf8_utf8Encode (s : String) : decodeUtf8 (utf8Encode s) = some s := by
  rw [decodeUtf8, utf8Encode]
  have h := utf8Encode_length s.data
  obtain ⟨extra, hx⟩ : ∃ extra, (s.data.flatMap utf8EncodeChar).length =
      s.data.length + extra := ⟨_, (Nat.add_sub_cancel' h).symm⟩
  rw [hx, utf8DecodeStrictLoop_encode]
  rfl

/-- On input that valid UTF-8 decodes, `errors="ignore"` decoding agrees
with strict decoding: nothing is dropped. -/
theorem utf8DecodeIgnoreLoop_of_strict (fuel : Nat) :
    ∀ bs cs, utf8DecodeStrictLoop fuel bs = some cs →
      utf8DecodeIgnoreLoop fuel bs = cs := by
  induction fuel with
  | zero =>
    intro bs cs h
    cases bs with
    | nil =>
      simp only [utf8DecodeStrictLoop] at h
      cases h
      rfl
    | cons b rest => simp [utf8DecodeStrictLoop] at h
  | succ fuel ih =>
    intro bs cs h
    cases bs with
    | nil =>
      simp only [utf8DecodeStrictLoop] at h
      cases h
      rfl
    | cons b rest =>
      simp only [utf8DecodeStrictLoop] at h
      simp only [utf8DecodeIgnoreLoop]
      cases hd : utf8DecodeOne b rest with
      | mk oc k =>
        rw [hd] at h
        cases oc with
        | none => simp at h
        | some c =>
          simp only [Option.map_eq_some'] at h
          obtain ⟨cs', hcs', rfl⟩ := h
          simp [ih _ _ hcs']

/-- Valid UTF-8 survives an `errors="ignore"` decode unchanged. -/
theorem decodeUtf8Ignore_of_strict (bs : Bytes) (s : String)
    (h : decodeUtf8 bs = some s) : decodeUtf8Ignore bs = s := by
  rw [decodeUtf8] at h
  rw [decodeUtf8Ignore]
  obtain ⟨cs, hcs, rfl⟩ := Option.map_eq_some'.1 h
  rw [utf8DecodeIgnoreLoop_of_strict _ _ _ hcs]

/-! ## The `.txt` candidate chain: Latin-1 accepts every byte sequence -/

/-- The second candidate never fails, so the chain is decided by the first
two: the CP1252, ISO-8859-1 and UTF-16 candidates and the binary
`errors="ignore"` fallback are unreachable. -/
theorem txtExtract_two_candidates (bs : Bytes) :
    txtExtract bs =
      match decodeUtf8 bs with
      | some s => univNewlinesStr s
      | none => univNewlinesStr (String.mk (latin1DecodeList bs)) := by
  unfold txtExtract txtCandidates
  cases h : decodeUtf8 bs <;> simp [firstSuccess, h, decodeLatin1]

/-- Universal-newline translation is the identity on carriage-return-free
text (the flag only matters after a `'\r'`). -/
theorem univNewlinesAux_noCR (cs : List Char) (h : ∀ c ∈ cs, c ≠ '\r') :
    univNewlinesAux false cs = cs := by
  induction cs with
  | nil => rfl
  | cons c cs ih =>
    have hc : c ≠ '\r' := h c (by simp)
    have ih' := ih (fun x hx => h x (by simp [hx]))
    by_cases hn : c = '\n'
    · subst hn
      simp [univNewlinesAux, ih']
    · simp [univNewlinesAux, hc, hn, ih']

theorem univNewlinesStr_noCR (s : String) (h : ∀ c ∈ s.data, c ≠ '\r') :
    univNewlinesStr s = s := by
  rw [univNewlinesStr, univNewlines, univNewlinesAux_noCR s.data h]

/-- Latin-1 decoding inverts Latin-1 encoding. -/
theorem latin1DecodeList_encode (cs : List Char) :
    ∀ bs, encodeLatin1Chars cs = some bs → latin1DecodeList bs = cs := by
  induction cs with
  | nil =>
    intro bs h
    simp only [encodeLatin1Chars, Option.some.injEq] at h
    subst h
    rfl
  | cons c cs ih =>
    intro bs h
    simp only [encodeLatin1Chars] at h
    by_cases hc : c.toNat < 0x100
    · rw [if_pos hc] at h
      obtain ⟨bs', hbs', rfl⟩ := Option.map_eq_some'.1 h
      simp only [latin1DecodeList, List.map_cons, Char.ofNat_toNat, List.cons.injEq]
      exact ⟨trivial, ih bs' hbs'⟩
    · rw [if_neg hc] at h
      cases h

/-! ## `extract_text` branch characterizations -/

theorem extract_text_txt (caps : ExtractCaps) (fs : FileSys) (p : String) (bs : Bytes)
    (hsfx : asciiLower (pathSuffix p) = ".txt") (hfs : fs p = some bs) :
    extract_text caps fs p = .ok (txtExtract bs) := by
  simp [extract_text, hsfx, hfs]

theorem extract_text_doc (caps : ExtractCaps) (fs : FileSys) (p : String)
    (process : String → Except PyErr Bytes) (bs : Bytes)
    (hsfx : asciiLower (pathSuffix p) = ".doc") (hcap : caps.textract = some process)
    (hp : process p = .ok bs) :
    extract_text caps fs p = .ok (decodeUtf8Ignore bs) := by
  simp [extract_text, hsfx, hcap, hp, Except.map]

theorem extract_text_docx (caps : ExtractCaps) (fs : FileSys) (p : String)
    (openDoc : String → Except PyErr DocxDocument) (d : DocxDocument)
    (hsfx : asciiLower (pathSuffix p) = ".docx") (hcap : caps.docx = some openDoc)
    (hp : openDoc p = .ok d) :
    extract_text caps fs p = .ok (docxRender d) := by
  simp [extract_text, hsfx, hcap, hp, Except.map]

theorem extract_text_unsupported (caps : ExtractCaps) (fs : FileSys) (p : String)
    (hpdf : asciiLower (pathSuffix p) ≠ ".pdf")
    (hdocx : asciiLower (pathSuffix p) ≠ ".docx")
    (hdoc : asciiLower (pathSuffix p) ≠ ".doc")
    (htxt : asciiLower (pathSuffix p) ≠ ".txt") :
    extract_text caps fs p = .error (.valueError ("Unsupported file type: " ++
      asciiLower (pathSuffix p) ++ " (supported: .pdf, .docx, .doc, .txt)")) := by
  simp [extract_text, hpdf, hdocx, hdoc, htxt]

/-! ## Inter-token whitespace -/

theorem skipWs_cons_not (c : Char) (l : List Char) (h : jsonWs c = false) :
    skipWs (c :: l) = c :: l := by
  simp [skipWs, List.dropWhile_cons, h]

theorem skipWs_cons_ws (c : Char) (l : List Char) (h : jsonWs c = true) :
    skipWs (c :: l) = skipWs l := by
  simp [skipWs, List.dropWhile_cons, h]

theorem skipWs_replicate_space (n : Nat) (l : List Char) :
    skipWs (List.replicate n ' ' ++ l) = skipWs l := by
  induction n with
  | zero => rfl
  | succ n ih =>
    rw [List.replicate_succ, List.cons_append, skipWs_cons_ws _ _ (by decide), ih]

theorem skipWs_pad (d : Nat) (l : List Char) :
    skipWs ((jpad d).data ++ l) = skipWs l :=
  skipWs_replicate_space (2 * d) l

theorem skipWs_idem (l : List Char) : skipWs (skipWs l) = skipWs l := by
  induction l with
  | nil => rfl
  | cons c l ih =>
    by_cases h : jsonWs c = true
    · rw [skipWs_cons_ws _ _ h, ih]
    · rw [skipWs_cons_not _ _ (by simpa using h), skipWs_cons_not _ _ (by simpa using h)]

theorem jsonParseVal_skipWs (fuel : Nat) (cs : List Char) :
    jsonParseVal fuel (skipWs cs) = jsonParseVal fuel cs := by
  cases fuel with
  | zero => rfl
  | succ fuel => simp only [jsonParseVal, skipWs_idem]

/-! ## String literals parse back to themselves -/

theorem hexVal_hexDigit (n : Nat) (h : n < 16) : hexVal (hexDigit n) = some n := by
  interval_cases n <;> rfl

theorem jsonEscapeChar_length (c : Char) : 1 ≤ (jsonEscapeChar c).length := by
  unfold jsonEscapeChar
  split_ifs <;> simp

theorem escList_length (cs : List Char) :
    cs.length ≤ (cs.flatMap jsonEscapeChar).length := by
  induction cs with
  | nil => simp
  | cons c cs ih =>
    rw [List.flatMap_cons]
    simp only [List.length_append, List.length_cons]
    have := jsonEscapeChar_length c
    omega

theorem jsonParseStringBody_escapeChar (c : Char) (tail : List Char) (fuel : Nat) :
    jsonParseStringBody (fuel + 1) (jsonEscapeChar c ++ tail) =
      (jsonParseStringBody fuel tail).map (fun p => (c :: p.1, p.2)) := by
  by_cases h1 : c = '"'
  · subst h1
    show jsonParseStringBody (fuel + 1) ('\\' :: '"' :: tail) = _
    simp [jsonParseStringBody, jsonScanEscape, jsonEscCode]
  by_cases h2 : c = '\\'
  · subst h2
    show jsonParseStringBody (fuel + 1) ('\\' :: '\\' :: tail) = _
    simp [jsonParseStringBody, jsonScanEscape, jsonEscCode]
  by_cases h3 : c = '\n'
  · subst h3
    show jsonParseStringBody (fuel + 1) ('\\' :: 'n' :: tail) = _
    simp [jsonParseStringBody, jsonScanEscape, jsonEscCode]
  by_cases h4 : c = '\t'
  · subst h4
    show jsonParseStringBody (fuel + 1) ('\\' :: 't' :: tail) = _
    simp [jsonParseStringBody, jsonScanEscape, jsonEscCode]
  by_cases h5 : c = '\r'
  · subst h5
    show jsonParseStringBody (fuel + 1) ('\\' :: 'r' :: tail) = _
    simp [jsonParseStringBody, jsonScanEscape, jsonEscCode]
  by_cases h6 : c = '\x08'
  · subst h6
    show jsonParseStringBody (fuel + 1) ('\\' :: 'b' :: tail) = _
    simp [jsonParseStringBody, jsonScanEscape, jsonEscCode]
  by_cases h7 : c = '\x0c'
  · subst h7
    show jsonParseStringBody (fuel + 1) ('\\' :: 'f' :: tail) = _
    simp [jsonParseStringBody, jsonScanEscape, jsonEscCode]
  by_cases h8 : c.toNat < 0x20
  · have he : jsonEscapeChar c =
        ['\\', 'u', '0', '0', hexDigit (c.toNat / 16), hexDigit (c.toNat % 16)] := by
      simp only [jsonEscapeChar]
      rw [if_neg h1, if_neg h2, if_neg h3, if_neg h4, if_neg h5, if_neg h6, if_neg h7,
        if_pos h8]
    rw [he]
    have hv1 : hexVal (hexDigit (c.toNat / 16)) = some (c.toNat / 16) :=
      hexVal_hexDigit _ (by omega)
    have hv2 : hexVal (hexDigit (c.toNat % 16)) = some (c.toNat % 16) :=
      hexVal_hexDigit _ (by omega)
    have hcond : c.toNat < 0xD800 ∨ 0xE000 ≤ c.toNat := by omega
    have hh : hex4 '0' '0' (hexDigit (c.toNat / 16)) (hexDigit (c.toNat % 16)) =
        some c.toNat := by
      unfold hex4
      rw [show hexVal '0' = some 0 from rfl, hv1, hv2]
      dsimp only
      congr 1
      omega
    simp [jsonParseStringBody, jsonScanEscape, hh, eq_true hcond, Char.ofNat_toNat]
  · have he : jsonEscapeChar c = [c] := by
      simp only [jsonEscapeChar]
      rw [if_neg h1, if_neg h2, if_neg h3, if_neg h4, if_neg h5, if_neg h6, if_neg h7,
        if_neg h8]
    rw [he]
    show jsonParseStringBody (fuel + 1) (c :: tail) = _
    simp only [jsonParseStringBody]
    rw [if_neg h1, if_neg h2, if_neg h8]

theorem jsonParseStringBody_escList (cs : List Char) (tail : List Char) (fuel : Nat) :
    jsonParseStringBody (cs.length + fuel + 1) (cs.flatMap jsonEscapeChar ++ '"' :: tail) =
      some (cs, tail) := by
  induction cs generalizing tail fuel with
  | nil =>
    show jsonParseStringBody (fuel + 1) ('"' :: tail) = some ([], tail)
    simp [jsonParseStringBody]
  | cons c cs ih =>
    have hl : (c :: cs).length + fuel + 1 = (cs.length + fuel + 1) + 1 := by
      simp only [List.length_cons]
      omega
    rw [hl, List.flatMap_cons, List.append_assoc, jsonParseStringBody_escapeChar, ih]
    rfl

/-- The string branch as `jsonParseVal` and `jsonParseMembers` invoke it,
with fuel one past the input length. -/
theorem jsonParseStringBody_call (cs : List Char) (tail : List Char) :
    jsonParseStringBody ((cs.flatMap jsonEscapeChar ++ '"' :: tail).length + 1)
      (cs.flatMap jsonEscapeChar ++ '"' :: tail) = some (cs, tail) := by
  have h := escList_length cs
  obtain ⟨e, he⟩ : ∃ e, (cs.flatMap jsonEscapeChar).length = cs.length + e :=
    ⟨_, (Nat.add_sub_cancel' h).symm⟩
  have hl : (cs.flatMap jsonEscapeChar ++ '"' :: tail).length + 1 =
      cs.length + (e + tail.length + 1) + 1 := by
    simp only [List.length_append, List.length_cons, he]
    omega
  rw [hl, jsonParseStringBody_escList]

/-! ## The character-level shape of a dump -/

theorem data_arrOpen : ("[\n" : String).data = ['[', '\n'] := rfl

theorem data_objOpen : ("\x7b\n" : String).data = ['\x7b', '\n'] := rfl

theorem data_commaNl : (",\n" : String).data = [',', '\n'] := rfl

theorem data_colonSp : (": " : String).data = [':', ' '] := rfl

theorem data_nl : ("\n" : String).data = ['\n'] := rfl

theorem data_rbracket : ("]" : String).data = [']'] := rfl

theorem data_rbrace : ("\x7d" : String).data = ['\x7d'] := rfl

theorem jsonDump_null (d : Nat) : jsonDump d .null = "null" := by
  simp [jsonDump]

theorem jsonDump_true (d : Nat) : jsonDump d (.bool true) = "true" := by
  simp [jsonDump]

theorem jsonDump_false (d : Nat) : jsonDump d (.bool false) = "false" := by
  simp [jsonDump]

theorem jsonDump_str (d : Nat) (s : String) :
    (jsonDump d (.str s)).data = '"' :: (s.data.flatMap jsonEscapeChar ++ ['"']) := by
  simp [jsonDump, jsonDumpStr]

theorem jsonDump_arr_nil (d : Nat) : jsonDump d (.arr []) = "[]" := by
  simp [jsonDump]

theorem jsonDump_obj_nil (d : Nat) : jsonDump d (.obj []) = "\x7b\x7d" := by
  simp [jsonDump]

theorem jsonDump_arr_cons (d : Nat) (x : Json) (xs : List Json) :
    (jsonDump d (.arr (x :: xs))).data =
      '[' :: '\n' :: ((jpad (d + 1)).data ++ ((jsonDump (d + 1) x).data ++
        ((jsonDumpArrTail (d + 1) xs).data ++
          ('\n' :: ((jpad d).data ++ [']']))))) := by
  simp [jsonDump, String.data_append, data_arrOpen, data_nl, data_rbracket,
    List.append_assoc]

theorem jsonDump_obj_cons (d : Nat) (k : String) (v : Json)
    (kvs : List (String × Json)) :
    (jsonDump d (.obj ((k, v) :: kvs))).data =
      '\x7b' :: '\n' :: ((jpad (d + 1)).data ++
        ('"' :: (k.data.flatMap jsonEscapeChar ++
          ('"' :: ':' :: ' ' :: ((jsonDump (d + 1) v).data ++
            ((jsonDumpObjTail (d + 1) kvs).data ++
              ('\n' :: ((jpad d).data ++ ['\x7d'])))))))) := by
  simp [jsonDump, jsonDumpStr, String.data_append, data_objOpen, data_colonSp,
    data_nl, data_rbrace, List.append_assoc]

theorem jsonDumpArrTail_nil (d : Nat) : jsonDumpArrTail d [] = "" := by
  simp [jsonDumpArrTail]

theorem jsonDumpArrTail_cons (d : Nat) (y : Json) (ys : List Json) :
    (jsonDumpArrTail d (y :: ys)).data =
      ',' :: '\n' :: ((jpad d).data ++ ((jsonDump d y).data ++
        (jsonDumpArrTail d ys).data)) := by
  simp [jsonDumpArrTail, String.data_append, data_commaNl, List.append_assoc]

theorem jsonDumpObjTail_nil (d : Nat) : jsonDumpObjTail d [] = "" := by
  simp [jsonDumpObjTail]

theorem jsonDumpObjTail_cons (d : Nat) (k : String) (v : Json)
    (kvs : List (String × Json)) :
    (jsonDumpObjTail d ((k, v) :: kvs)).data =
      ',' :: '\n' :: ((jpad d).data ++
        ('"' :: (k.data.flatMap jsonEscapeChar ++
          ('"' :: ':' :: ' ' :: ((jsonDump d v).data ++
            (jsonDumpObjTail d kvs).data))))) := by
  simp [jsonDumpObjTail, jsonDumpStr, String.data_append, data_commaNl, data_colonSp,
    List.append_assoc]

/-- A dump starts with a non-whitespace character that is not a closer, so
leading `skipWs` leaves it alone and the parser's empty-container check
answers no. -/
theorem jsonDump_parse_start (j : Json) (hj : Json.loadable j = true) (d : Nat)
    (R : List Char) :
    skipWs ((jsonDump d j).data ++ R) = (jsonDump d j).data ++ R ∧
    ((jsonDump d j).data ++ R).head? ≠ some ']' ∧
    ((jsonDump d j).data ++ R).head? ≠ some '\x7d' := by
  cases j with
  | null =>
    rw [jsonDump_null]
    exact ⟨skipWs_cons_not _ _ (by decide), by simp, by simp⟩
  | bool b =>
    cases b with
    | true =>
      rw [jsonDump_true]
      exact ⟨skipWs_cons_not _ _ (by decide), by simp, by simp⟩
    | false =>
      rw [jsonDump_false]
      exact ⟨skipWs_cons_not _ _ (by decide), by simp, by simp⟩
  | num n => simp [Json.loadable] at hj
  | str s =>
    rw [jsonDump_str]
    exact ⟨skipWs_cons_not _ _ (by decide), by simp, by simp⟩
  | arr elems =>
    cases elems with
    | nil =>
      rw [jsonDump_arr_nil]
      exact ⟨skipWs_cons_not _ _ (by decide), by simp, by simp⟩
    | cons x xs =>
      rw [jsonDump_arr_cons]
      exact ⟨skipWs_cons_not _ _ (by decide), by simp, by simp⟩
  | obj members =>
    cases members with
    | nil =>
      rw [jsonDump_obj_nil]
      exact ⟨skipWs_cons_not _ _ (by decide), by simp, by simp⟩
    | cons kv kvs =>
      obtain ⟨k, v⟩ := kv
      rw [jsonDump_obj_cons]
      exact ⟨skipWs_cons_not _ _ (by decide), by simp, by simp⟩

theorem data_empty : ("" : String).data = [] := rfl

/-! ## One-step dispatch lemmas for `jsonParseVal` -/

theorem jsonParseVal_null (f : Nat) (tail : List Char) :
    jsonParseVal (f + 1) ('n' :: 'u' :: 'l' :: 'l' :: tail) = some (.null, tail) := by
  simp only [jsonParseVal]
  rw [skipWs_cons_not _ _ (by decide)]
  dsimp only
  rw [if_pos (show 'n' = 'n' from rfl)]
  simp

theorem jsonParseVal_true (f : Nat) (tail : List Char) :
    jsonParseVal (f + 1) ('t' :: 'r' :: 'u' :: 'e' :: tail) =
      some (.bool true, tail) := by
  simp only [jsonParseVal]
  rw [skipWs_cons_not _ _ (by decide)]
  dsimp only
  rw [if_neg (show ¬('t' = 'n') from by decide), if_pos (show 't' = 't' from rfl)]
  simp

theorem jsonParseVal_false (f : Nat) (tail : List Char) :
    jsonParseVal (f + 1) ('f' :: 'a' :: 'l' :: 's' :: 'e' :: tail) =
      some (.bool false, tail) := by
  simp only [jsonParseVal]
  rw [skipWs_cons_not _ _ (by decide)]
  dsimp only
  rw [if_neg (show ¬('f' = 'n') from by decide), if_neg (show ¬('f' = 't') from by decide),
    if_pos (show 'f' = 'f' from rfl)]
  simp

theorem jsonParseVal_str (f : Nat) (body : List Char) :
    jsonParseVal (f + 1) ('"' :: body) =
      (jsonParseStringBody (body.length + 1) body).map
        (fun p => (.str (String.mk p.1), p.2)) := by
  simp only [jsonParseVal]
  rw [skipWs_cons_not _ _ (by decide)]
  dsimp only
  rw [if_neg (show ¬('"' = 'n') from by decide), if_neg (show ¬('"' = 't') from by decide),
    if_neg (show ¬('"' = 'f') from by decide), if_pos (show ('"' = '"') from rfl)]

theorem jsonParseVal_arr (f : Nat) (body : List Char) :
    jsonParseVal (f + 1) ('[' :: body) =
      if (skipWs body).head? = some ']' then some (.arr [], (skipWs body).tail)
      else (jsonParseItems f body).map (fun p => (.arr p.1, p.2)) := by
  simp only [jsonParseVal]
  rw [skipWs_cons_not _ _ (by decide)]
  dsimp only
  rw [if_neg (show ¬('[' = 'n') from by decide), if_neg (show ¬('[' = 't') from by decide),
    if_neg (show ¬('[' = 'f') from by decide), if_neg (show ¬('[' = '"') from by decide),
    if_pos (show ('[' = '[') from rfl)]

theorem jsonParseVal_obj (f : Nat) (body : List Char) :
    jsonParseVal (f + 1) ('\x7b' :: body) =
      if (skipWs body).head? = some '\x7d' then some (.obj [], (skipWs body).tail)
      else (jsonParseMembers f body).map (fun p => (.obj (jsonBuildObj p.1), p.2)) := by
  simp only [jsonParseVal]
  rw [skipWs_cons_not _ _ (by decide)]
  dsimp only
  rw [if_neg (show ¬('\x7b' = 'n') from by decide),
    if_neg (show ¬('\x7b' = 't') from by decide),
    if_neg (show ¬('\x7b' = 'f') from by decide),
    if_neg (show ¬('\x7b' = '"') from by decide),
    if_neg (show ¬('\x7b' = '[') from by decide),
    if_pos (show ('\x7b' = '\x7b') from rfl)]

/-! ## Rebuilding a `dict` from distinct keys changes nothing -/

theorem jsonObjInsert_notMem (acc : List (String × Json)) (k : String) (v : Json)
    (h : ∀ kv ∈ acc, kv.1 ≠ k) : jsonObjInsert acc k v = acc ++ [(k, v)] := by
  have hc : acc.any (fun kv => kv.1 == k) = false := by
    rw [List.any_eq_false]
    intro kv hmem
    simp [h kv hmem]
  rw [jsonObjInsert, hc]
  simp

theorem foldl_objInsert (kvs : List (String × Json)) :
    ∀ acc, keysDistinct kvs = true → (∀ kv ∈ kvs, ∀ kv2 ∈ acc, kv2.1 ≠ kv.1) →
      List.foldl (fun a kv => jsonObjInsert a kv.1 kv.2) acc kvs = acc ++ kvs := by
  induction kvs with
  | nil =>
    intro acc _ _
    simp
  | cons kv rest ih =>
    intro acc hdist hacc
    obtain ⟨k, v⟩ := kv
    have hdist2 : keysDistinct rest = true := by
      simp only [keysDistinct, Bool.and_eq_true] at hdist
      exact hdist.2
    have hk : ∀ kv2 ∈ rest, kv2.1 ≠ k := by
      intro kv2 hm heq
      simp only [keysDistinct, Bool.and_eq_true, Bool.not_eq_true'] at hdist
      have hmem : k ∈ rest.map Prod.fst := List.mem_map.2 ⟨kv2, hm, heq⟩
      have hcontains : (rest.map Prod.fst).contains k = true := by
        simpa [List.contains] using List.elem_eq_true_of_mem hmem
      rw [hdist.1] at hcontains
      cases hcontains
    simp only [List.foldl_cons]
    rw [jsonObjInsert_notMem acc k v (fun kv2 hm => hacc (k, v) (by simp) kv2 hm)]
    rw [ih (acc ++ [(k, v)]) hdist2 ?_]
    · simp
    · intro kv2 hm kv3 hm3
      rcases List.mem_append.1 hm3 with h1 | h1
      · exact hacc kv2 (by simp [hm]) kv3 h1
      · simp only [List.mem_singleton] at h1
        subst h1
        exact fun heq => hk kv2 hm heq.symm

theorem jsonBuildObj_distinct (kvs : List (String × Json))
    (h : keysDistinct kvs = true) : jsonBuildObj kvs = kvs := by
  have := foldl_objInsert kvs [] h (by simp)
  simpa [jsonBuildObj] using this

/-! ## The round trip: a dump parses back to the value it came from -/

mutual

theorem jsonRT_val : ∀ (j : Json) (d : Nat) (tail : List Char) (fuel : Nat),
    Json.loadable j = true → fuelVal j ≤ fuel →
    jsonParseVal fuel ((jsonDump d j).data ++ tail) = some (j, tail)
  | .null, d, tail, fuel, _, hf => by
    obtain ⟨f, rfl⟩ : ∃ f, fuel = f + 1 := by
      have h1 : fuelVal .null = 1 := by simp [fuelVal]
      exact ⟨fuel - 1, by omega⟩
    rw [jsonDump_null]
    exact jsonParseVal_null f tail
  | .bool true, d, tail, fuel, _, hf => by
    obtain ⟨f, rfl⟩ : ∃ f, fuel = f + 1 := by
      have h1 : fuelVal (.bool true) = 1 := by simp [fuelVal]
      exact ⟨fuel - 1, by omega⟩
    rw [jsonDump_true]
    exact jsonParseVal_true f tail
  | .bool false, d, tail, fuel, _, hf => by
    obtain ⟨f, rfl⟩ : ∃ f, fuel = f + 1 := by
      have h1 : fuelVal (.bool false) = 1 := by simp [fuelVal]
      exact ⟨fuel - 1, by omega⟩
    rw [jsonDump_false]
    exact jsonParseVal_false f tail
  | .num n, _, _, _, hl, _ => by
    simp [Json.loadable] at hl
  | .str s, d, tail, fuel, _, hf => by
    obtain ⟨f, rfl⟩ : ∃ f, fuel = f + 1 := by
      have h1 : fuelVal (.str s) = 1 := by simp [fuelVal]
      exact ⟨fuel - 1, by omega⟩
    have hd : (jsonDump d (.str s)).data ++ tail =
        '"' :: (s.data.flatMap jsonEscapeChar ++ '"' :: tail) := by
      rw [jsonDump_str]
      simp
    rw [hd, jsonParseVal_str, jsonParseStringBody_call]
    rfl
  | .arr [], d, tail, fuel, _, hf => by
    obtain ⟨f, rfl⟩ : ∃ f, fuel = f + 1 := by
      have h1 : fuelVal (.arr []) = 1 := by simp [fuelVal]
      exact ⟨fuel - 1, by omega⟩
    rw [jsonDump_arr_nil]
    rw [show ((("[]" : String).data) ++ tail) = '[' :: ']' :: tail from rfl]
    rw [jsonParseVal_arr, skipWs_cons_not _ _ (by decide)]
    simp
  | .obj [], d, tail, fuel, _, hf => by
    obtain ⟨f, rfl⟩ : ∃ f, fuel = f + 1 := by
      have h1 : fuelVal (.obj []) = 1 := by simp [fuelVal]
      exact ⟨fuel - 1, by omega⟩
    rw [jsonDump_obj_nil]
    rw [show ((("\x7b\x7d" : String).data) ++ tail) = '\x7b' :: '\x7d' :: tail from rfl]
    rw [jsonParseVal_obj, skipWs_cons_not _ _ (by decide)]
    simp
  | .arr (x :: xs), d, tail, fuel, hl, hf => by
    have hx : Json.loadable x = true ∧ Json.loadableList xs = true := by
      simpa [Json.loadable, Json.loadableList] using hl
    obtain ⟨f, rfl⟩ : ∃ f, fuel = f + 1 := by
      have h1 : fuelVal (.arr (x :: xs)) = 1 + fuelItems (x :: xs) := by simp [fuelVal]
      exact ⟨fuel - 1, by omega⟩
    have hfi : fuelItems (x :: xs) ≤ f := by
      have h1 : fuelVal (.arr (x :: xs)) = 1 + fuelItems (x :: xs) := by simp [fuelVal]
      omega
    have hd : (jsonDump d (.arr (x :: xs))).data ++ tail =
        '[' :: '\n' :: ((jpad (d + 1)).data ++ ((jsonDump (d + 1) x).data ++
          ((jsonDumpArrTail (d + 1) xs).data ++
            ('\n' :: ((jpad d).data ++ (']' :: tail)))))) := by
      rw [jsonDump_arr_cons]
      simp
    rw [hd, jsonParseVal_arr]
    have hsk : skipWs ('\n' :: ((jpad (d + 1)).data ++ ((jsonDump (d + 1) x).data ++
          ((jsonDumpArrTail (d + 1) xs).data ++
            ('\n' :: ((jpad d).data ++ (']' :: tail))))))) =
        (jsonDump (d + 1) x).data ++
          ((jsonDumpArrTail (d + 1) xs).data ++
            ('\n' :: ((jpad d).data ++ (']' :: tail)))) := by
      rw [skipWs_cons_ws _ _ (by decide), skipWs_pad,
        (jsonDump_parse_start x hx.1 (d + 1) _).1]
    rw [hsk, if_neg (jsonDump_parse_start x hx.1 (d + 1) _).2.1]
    rw [jsonRT_items x xs d tail f hx.1 hx.2 hfi]
    rfl
  | .obj ((k, v) :: kvs), d, tail, fuel, hl, hf => by
    have hx : keysDistinct ((k, v) :: kvs) = true ∧ (Json.loadable v = true ∧
        Json.loadableMembers kvs = true) := by
      simpa [Json.loadable, Json.loadableMembers] using hl
    obtain ⟨f, rfl⟩ : ∃ f, fuel = f + 1 := by
      have h1 : fuelVal (.obj ((k, v) :: kvs)) = 1 + fuelMembers ((k, v) :: kvs) := by
        simp [fuelVal]
      exact ⟨fuel - 1, by omega⟩
    have hfm : fuelMembers ((k, v) :: kvs) ≤ f := by
      have h1 : fuelVal (.obj ((k, v) :: kvs)) = 1 + fuelMembers ((k, v) :: kvs) := by
        simp [fuelVal]
      omega
    have hd : (jsonDump d (.obj ((k, v) :: kvs))).data ++ tail =
        '\x7b' :: '\n' :: ((jpad (d + 1)).data ++
          ('"' :: (k.data.flatMap jsonEscapeChar ++
            ('"' :: ':' :: ' ' :: ((jsonDump (d + 1) v).data ++
              ((jsonDumpObjTail (d + 1) kvs).data ++
                ('\n' :: ((jpad d).data ++ ('\x7d' :: tail))))))))) := by
      rw [jsonDump_obj_cons]
      simp
    rw [hd, jsonParseVal_obj]
    have hsk : skipWs ('\n' :: ((jpad (d + 1)).data ++
          ('"' :: (k.data.flatMap jsonEscapeChar ++
            ('"' :: ':' :: ' ' :: ((jsonDump (d + 1) v).data ++
              ((jsonDumpObjTail (d + 1) kvs).data ++
                ('\n' :: ((jpad d).data ++ ('\x7d' :: tail)))))))))) =
        '"' :: (k.data.flatMap jsonEscapeChar ++
          ('"' :: ':' :: ' ' :: ((jsonDump (d + 1) v).data ++
            ((jsonDumpObjTail (d + 1) kvs).data ++
              ('\n' :: ((jpad d).data ++ ('\x7d' :: tail))))))) := by
      rw [skipWs_cons_ws _ _ (by decide), skipWs_pad, skipWs_cons_not _ _ (by decide)]
    rw [hsk, if_neg (by simp)]
    rw [jsonRT_members k v kvs d tail f hx.2.1 hx.2.2 hfm]
    simp [jsonBuildObj_distinct _ hx.1]
termination_by j _ _ _ _ _ => sizeOf j
decreasing_by all_goals (simp; try omega)

theorem jsonRT_items : ∀ (x : Json) (xs : List Json) (d : Nat) (tail : List Char)
    (fuel : Nat), Json.loadable x = true → Json.loadableList xs = true →
    fuelItems (x :: xs) ≤ fuel →
    jsonParseItems fuel
      ('\n' :: ((jpad (d + 1)).data ++ ((jsonDump (d + 1) x).data ++
        ((jsonDumpArrTail (d + 1) xs).data ++
          ('\n' :: ((jpad d).data ++ (']' :: tail))))))) = some (x :: xs, tail)
  | x, [], d, tail, fuel, hx, _, hf => by
    obtain ⟨f, rfl⟩ : ∃ f, fuel = f + 1 := by
      have h1 : fuelItems (x :: []) = 1 + max (fuelVal x) (fuelItems []) := by
        simp [fuelItems]
      exact ⟨fuel - 1, by omega⟩
    have hfx : fuelVal x ≤ f := by
      have h1 : fuelItems (x :: []) = 1 + max (fuelVal x) (fuelItems []) := by
        simp [fuelItems]
      have h2 := Nat.le_max_left (fuelVal x) (fuelItems [])
      omega
    rw [jsonDumpArrTail_nil, data_empty, List.nil_append]
    simp only [jsonParseItems]
    have hv : jsonParseVal f ('\n' :: ((jpad (d + 1)).data ++ ((jsonDump (d + 1) x).data ++
        ('\n' :: ((jpad d).data ++ (']' :: tail)))))) =
        some (x, '\n' :: ((jpad d).data ++ (']' :: tail))) := by
      rw [← jsonParseVal_skipWs, skipWs_cons_ws _ _ (by decide), skipWs_pad,
        (jsonDump_parse_start x hx (d + 1) _).1]
      exact jsonRT_val x (d + 1) _ f hx hfx
    rw [hv]
    dsimp only
    rw [skipWs_cons_ws _ _ (by decide), skipWs_pad, skipWs_cons_not _ _ (by decide)]
    dsimp only
    rw [if_pos (show ']' = ']' from rfl)]
  | x, y :: ys, d, tail, fuel, hx, hys, hf => by
    have hy : Json.loadable y = true ∧ Json.loadableList ys = true := by
      simpa [Json.loadableList] using hys
    obtain ⟨f, rfl⟩ : ∃ f, fuel = f + 1 := by
      have h1 : fuelItems (x :: y :: ys) = 1 + max (fuelVal x) (fuelItems (y :: ys)) := by
        simp [fuelItems]
      exact ⟨fuel - 1, by omega⟩
    have hfx : fuelVal x ≤ f := by
      have h1 : fuelItems (x :: y :: ys) = 1 + max (fuelVal x) (fuelItems (y :: ys)) := by
        simp [fuelItems]
      have h2 := Nat.le_max_left (fuelVal x) (fuelItems (y :: ys))
      omega
    have hfys : fuelItems (y :: ys) ≤ f := by
      have h1 : fuelItems (x :: y :: ys) = 1 + max (fuelVal x) (fuelItems (y :: ys)) := by
        simp [fuelItems]
      have h2 := Nat.le_max_right (fuelVal x) (fuelItems (y :: ys))
      omega
    have hr : (jsonDumpArrTail (d + 1) (y :: ys)).data ++
        ('\n' :: ((jpad d).data ++ (']' :: tail))) =
        ',' :: '\n' :: ((jpad (d + 1)).data ++ ((jsonDump (d + 1) y).data ++
          ((jsonDumpArrTail (d + 1) ys).data ++
            ('\n' :: ((jpad d).data ++ (']' :: tail)))))) := by
      rw [jsonDumpArrTail_cons]
      simp
    rw [hr]
    simp only [jsonParseItems]
    have hv : jsonParseVal f ('\n' :: ((jpad (d + 1)).data ++ ((jsonDump (d + 1) x).data ++
        (',' :: '\n' :: ((jpad (d + 1)).data ++ ((jsonDump (d + 1) y).data ++
          ((jsonDumpArrTail (d + 1) ys).data ++
            ('\n' :: ((jpad d).data ++ (']' :: tail)))))))))) =
        some (x, ',' :: '\n' :: ((jpad (d + 1)).data ++ ((jsonDump (d + 1) y).data ++
          ((jsonDumpArrTail (d + 1) ys).data ++
            ('\n' :: ((jpad d).data ++ (']' :: tail))))))) := by
      rw [← jsonParseVal_skipWs, skipWs_cons_ws _ _ (by decide), skipWs_pad,
        (jsonDump_parse_start x hx (d + 1) _).1]
      exact jsonRT_val x (d + 1) _ f hx hfx
    rw [hv]
    dsimp only
    rw [skipWs_cons_not _ _ (by decide)]
    dsimp only
    rw [if_neg (show ¬(',' = ']') from by decide), if_pos (show ',' = ',' from rfl)]
    rw [jsonRT_items y ys d tail f hy.1 hy.2 hfys]
termination_by x xs _ _ _ _ _ _ => 1 + sizeOf x + sizeOf xs
decreasing_by all_goals (simp; try omega)

theorem jsonRT_members : ∀ (k : String) (v : Json) (kvs : List (String × Json))
    (d : Nat) (tail : List Char) (fuel : Nat),
    Json.loadable v = true → Json.loadableMembers kvs = true →
    fuelMembers ((k, v) :: kvs) ≤ fuel →
    jsonParseMembers fuel
      ('\n' :: ((jpad (d + 1)).data ++ ('"' :: (k.data.flatMap jsonEscapeChar ++
        ('"' :: ':' :: ' ' :: ((jsonDump (d + 1) v).data ++
          ((jsonDumpObjTail (d + 1) kvs).data ++
            ('\n' :: ((jpad d).data ++ ('\x7d' :: tail)))))))))) =
      some ((k, v) :: kvs, tail)
  | k, v, [], d, tail, fuel, hv_, _, hf => by
    obtain ⟨f, rfl⟩ : ∃ f, fuel = f + 1 := by
      have h1 : fuelMembers ((k, v) :: []) = 1 + max (fuelVal v) (fuelMembers []) := by
        simp [fuelMembers]
      exact ⟨fuel - 1, by omega⟩
    have hfv : fuelVal v ≤ f := by
      have h1 : fuelMembers ((k, v) :: []) = 1 + max (fuelVal v) (fuelMembers []) := by
        simp [fuelMembers]
      have h2 := Nat.le_max_left (fuelVal v) (fuelMembers [])
      omega
    rw [jsonDumpObjTail_nil, data_empty, List.nil_append]
    simp only [jsonParseMembers]
    rw [skipWs_cons_ws _ _ (by decide), skipWs_pad, skipWs_cons_not _ _ (by decide)]
    dsimp only
    rw [if_pos (show ('"' = '"') from rfl)]
    rw [jsonParseStringBody_call]
    dsimp only
    rw [skipWs_cons_not _ _ (by decide)]
    dsimp only
    rw [if_pos (show (':' = ':') from rfl)]
    have hv2 : jsonParseVal f (' ' :: ((jsonDump (d + 1) v).data ++
        ('\n' :: ((jpad d).data ++ ('\x7d' :: tail))))) =
        some (v, '\n' :: ((jpad d).data ++ ('\x7d' :: tail))) := by
      rw [← jsonParseVal_skipWs, skipWs_cons_ws _ _ (by decide),
        (jsonDump_parse_start v hv_ (d + 1) _).1]
      exact jsonRT_val v (d + 1) _ f hv_ hfv
    rw [hv2]
    dsimp only
    rw [skipWs_cons_ws _ _ (by decide), skipWs_pad, skipWs_cons_not _ _ (by decide)]
    dsimp only
    rw [if_pos (show ('\x7d' = '\x7d') from rfl)]
  | k, v, (k2, v2) :: kvs2, d, tail, fuel, hv_, hms, hf => by
    have hm2 : Json.loadable v2 = true ∧ Json.loadableMembers kvs2 = true := by
      simpa [Json.loadableMembers] using hms
    obtain ⟨f, rfl⟩ : ∃ f, fuel = f + 1 := by
      have h1 : fuelMembers ((k, v) :: (k2, v2) :: kvs2) =
          1 + max (fuelVal v) (fuelMembers ((k2, v2) :: kvs2)) := by
        simp [fuelMembers]
      exact ⟨fuel - 1, by omega⟩
    have hfv : fuelVal v ≤ f := by
      have h1 : fuelMembers ((k, v) :: (k2, v2) :: kvs2) =
          1 + max (fuelVal v) (fuelMembers ((k2, v2) :: kvs2)) := by
        simp [fuelMembers]
      have h2 := Nat.le_max_left (fuelVal v) (fuelMembers ((k2, v2) :: kvs2))
      omega
    have hfm2 : fuelMembers ((k2, v2) :: kvs2) ≤ f := by
      have h1 : fuelMembers ((k, v) :: (k2, v2) :: kvs2) =
          1 + max (fuelVal v) (fuelMembers ((k2, v2) :: kvs2)) := by
        simp [fuelMembers]
      have h2 := Nat.le_max_right (fuelVal v) (fuelMembers ((k2, v2) :: kvs2))
      omega
    have hr : (jsonDumpObjTail (d + 1) ((k2, v2) :: kvs2)).data ++
        ('\n' :: ((jpad d).data ++ ('\x7d' :: tail))) =
        ',' :: '\n' :: ((jpad (d + 1)).data ++
          ('"' :: (k2.data.flatMap jsonEscapeChar ++
            ('"' :: ':' :: ' ' :: ((jsonDump (d + 1) v2).data ++
              ((jsonDumpObjTail (d + 1) kvs2).data ++
                ('\n' :: ((jpad d).data ++ ('\x7d' :: tail))))))))) := by
      rw [jsonDumpObjTail_cons]
      simp
    rw [hr]
    simp only [jsonParseMembers]
    rw [skipWs_cons_ws _ _ (by decide), skipWs_pad, skipWs_cons_not _ _ (by decide)]
    dsimp only
    rw [if_pos (show ('"' = '"') from rfl)]
    rw [jsonParseStringBody_call]
    dsimp only
    rw [skipWs_cons_not _ _ (by decide)]
    dsimp only
    rw [if_pos (show (':' = ':') from rfl)]
    have hv2 : jsonParseVal f (' ' :: ((jsonDump (d + 1) v).data ++
        (',' :: '\n' :: ((jpad (d + 1)).data ++
          ('"' :: (k2.data.flatMap jsonEscapeChar ++
            ('"' :: ':' :: ' ' :: ((jsonDump (d + 1) v2).data ++
              ((jsonDumpObjTail (d + 1) kvs2).data ++
                ('\n' :: ((jpad d).data ++ ('\x7d' :: tail)))))))))))) =
        some (v, ',' :: '\n' :: ((jpad (d + 1)).data ++
          ('"' :: (k2.data.flatMap jsonEscapeChar ++
            ('"' :: ':' :: ' ' :: ((jsonDump (d + 1) v2).data ++
              ((jsonDumpObjTail (d + 1) kvs2).data ++
                ('\n' :: ((jpad d).data ++ ('\x7d' :: tail)))))))))) := by
      rw [← jsonParseVal_skipWs, skipWs_cons_ws _ _ (by decide),
        (jsonDump_parse_start v hv_ (d + 1) _).1]
      exact jsonRT_val v (d + 1) _ f hv_ hfv
    rw [hv2]
    dsimp only
    rw [skipWs_cons_not _ _ (by decide)]
    dsimp only
    rw [if_neg (show ¬(',' = '\x7d') from by decide), if_pos (show (',' = ',') from rfl)]
    rw [jsonRT_members k2 v2 kvs2 d tail f hm2.1 hm2.2 hfm2]
termination_by _ v kvs _ _ _ _ _ _ => 1 + sizeOf v + sizeOf kvs
decreasing_by all_goals (simp; try omega)

end

/-! ## The fuel `jsonLoads` supplies covers any dump -/

mutual

theorem fuelVal_le_dump : ∀ (j : Json), Json.loadable j = true → ∀ d : Nat,
    fuelVal j ≤ (jsonDump d j).data.length
  | .null, _, d => by
    rw [jsonDump_null]
    simp [fuelVal]
  | .bool true, _, d => by
    rw [jsonDump_true]
    simp [fuelVal]
  | .bool false, _, d => by
    rw [jsonDump_false]
    simp [fuelVal]
  | .num n, hl, _ => by simp [Json.loadable] at hl
  | .str s, _, d => by
    rw [jsonDump_str]
    simp [fuelVal]
  | .arr [], _, d => by
    rw [jsonDump_arr_nil]
    simp [fuelVal]
  | .obj [], _, d => by
    rw [jsonDump_obj_nil]
    simp [fuelVal]
  | .arr (x :: xs), hl, d => by
    have hx : Json.loadable x = true ∧ Json.loadableList xs = true := by
      simpa [Json.loadable, Json.loadableList] using hl
    have h1 := fuelVal_le_dump x hx.1 (d + 1)
    have h2 := fuelItems_le_tail xs hx.2 (d + 1)
    have h3 : fuelVal (.arr (x :: xs)) = 1 + (1 + max (fuelVal x) (fuelItems xs)) := by
      simp [fuelVal, fuelItems]
    rw [jsonDump_arr_cons]
    simp only [List.length_cons, List.length_append]
    have h5 : max (fuelVal x) (fuelItems xs) ≤ fuelVal x + fuelItems xs :=
      max_le (Nat.le_add_right _ _) (Nat.le_add_left _ _)
    omega
  | .obj ((k, v) :: kvs), hl, d => by
    have hx : keysDistinct ((k, v) :: kvs) = true ∧ (Json.loadable v = true ∧
        Json.loadableMembers kvs = true) := by
      simpa [Json.loadable, Json.loadableMembers] using hl
    have h1 := fuelVal_le_dump v hx.2.1 (d + 1)
    have h2 := fuelMembers_le_tail kvs hx.2.2 (d + 1)
    have h3 : fuelVal (.obj ((k, v) :: kvs)) =
        1 + (1 + max (fuelVal v) (fuelMembers kvs)) := by
      simp [fuelVal, fuelMembers]
    have h5 : max (fuelVal v) (fuelMembers kvs) ≤ fuelVal v + fuelMembers kvs :=
      max_le (Nat.le_add_right _ _) (Nat.le_add_left _ _)
    rw [jsonDump_obj_cons]
    simp only [List.length_cons, List.length_append]
    omega

theorem fuelItems_le_tail : ∀ (xs : List Json), Json.loadableList xs = true →
    ∀ d : Nat, fuelItems xs ≤ (jsonDumpArrTail d xs).data.length + 1
  | [], _, d => by
    rw [jsonDumpArrTail_nil, data_empty]
    simp [fuelItems]
  | y :: ys, hl, d => by
    have hy : Json.loadable y = true ∧ Json.loadableList ys = true := by
      simpa [Json.loadableList] using hl
    have h1 := fuelVal_le_dump y hy.1 d
    have h2 := fuelItems_le_tail ys hy.2 d
    have h3 : fuelItems (y :: ys) = 1 + max (fuelVal y) (fuelItems ys) := by
      simp [fuelItems]
    have h5 : max (fuelVal y) (fuelItems ys) ≤ fuelVal y + fuelItems ys :=
      max_le (Nat.le_add_right _ _) (Nat.le_add_left _ _)
    rw [jsonDumpArrTail_cons]
    simp only [List.length_cons, List.length_append]
    omega

theorem fuelMembers_le_tail : ∀ (kvs : List (String × Json)),
    Json.loadableMembers kvs = true →
    ∀ d : Nat, fuelMembers kvs ≤ (jsonDumpObjTail d kvs).data.length + 1
  | [], _, d => by
    rw [jsonDumpObjTail_nil, data_empty]
    simp [fuelMembers]
  | (k2, v2) :: kvs2, hl, d => by
    have hy : Json.loadable v2 = true ∧ Json.loadableMembers kvs2 = true := by
      simpa [Json.loadableMembers] using hl
    have h1 := fuelVal_le_dump v2 hy.1 d
    have h2 := fuelMembers_le_tail kvs2 hy.2 d
    have h3 : fuelMembers ((k2, v2) :: kvs2) =
        1 + max (fuelVal v2) (fuelMembers kvs2) := by
      simp [fuelMembers]
    have h5 : max (fuelVal v2) (fuelMembers kvs2) ≤ fuelVal v2 + fuelMembers kvs2 :=
      max_le (Nat.le_add_right _ _) (Nat.le_add_left _ _)
    rw [jsonDumpObjTail_cons]
    simp only [List.length_cons, List.length_append]
    omega

end

/-! ## A dump never contains a raw carriage return -/

theorem hexDigit_ne_cr (n : Nat) (h : n < 16) : hexDigit n ≠ '\r' := by
  interval_cases n <;> decide

theorem jsonEscapeChar_noCR (c : Char) : '\r' ∉ jsonEscapeChar c := by
  unfold jsonEscapeChar
  split_ifs with h1 h2 h3 h4 h5 h6 h7 h8
  · exact by decide
  · exact by decide
  · exact by decide
  · exact by decide
  · exact by decide
  · exact by decide
  · exact by decide
  · intro hmem
    simp only [List.mem_cons, List.not_mem_nil, or_false] at hmem
    rcases hmem with h | h | h | h | h | h
    · exact absurd h (by decide)
    · exact absurd h (by decide)
    · exact absurd h (by decide)
    · exact absurd h (by decide)
    · exact hexDigit_ne_cr _ (by omega) h.symm
    · exact hexDigit_ne_cr _ (by omega) h.symm
  · intro hmem
    simp only [List.mem_cons, List.not_mem_nil, or_false] at hmem
    exact h5 hmem.symm

theorem flatMap_escape_noCR (cs : List Char) :
    '\r' ∉ cs.flatMap jsonEscapeChar := by
  intro h
  obtain ⟨c, _, hc⟩ := List.mem_flatMap.1 h
  exact jsonEscapeChar_noCR c hc

theorem jpad_noCR (d : Nat) : '\r' ∉ (jpad d).data := by
  intro h
  have := List.eq_of_mem_replicate h
  cases this

mutual

theorem jsonDump_noCR : ∀ (j : Json), Json.loadable j = true → ∀ d : Nat,
    '\r' ∉ (jsonDump d j).data
  | .null, _, d => by
    rw [jsonDump_null]
    decide
  | .bool true, _, d => by
    rw [jsonDump_true]
    decide
  | .bool false, _, d => by
    rw [jsonDump_false]
    decide
  | .num n, hl, _ => by simp [Json.loadable] at hl
  | .str s, _, d => by
    rw [jsonDump_str]
    intro h
    rcases List.mem_cons.1 h with h1 | h1
    · cases h1
    rcases List.mem_append.1 h1 with h2 | h2
    · exact flatMap_escape_noCR s.data h2
    · simp at h2
  | .arr [], _, d => by
    rw [jsonDump_arr_nil]
    decide
  | .obj [], _, d => by
    rw [jsonDump_obj_nil]
    decide
  | .arr (x :: xs), hl, d => by
    have hx : Json.loadable x = true ∧ Json.loadableList xs = true := by
      simpa [Json.loadable, Json.loadableList] using hl
    have h1 := jsonDump_noCR x hx.1 (d + 1)
    have h2 := jsonDumpArrTail_noCR xs hx.2 (d + 1)
    have h3 := jpad_noCR (d + 1)
    have h4 := jpad_noCR d
    rw [jsonDump_arr_cons]
    simp only [List.mem_cons, List.mem_append, List.not_mem_nil, or_false, not_or]
    exact ⟨by decide, by decide, h3, h1, h2, by decide, h4, by decide⟩
  | .obj ((k, v) :: kvs), hl, d => by
    have hx : keysDistinct ((k, v) :: kvs) = true ∧ (Json.loadable v = true ∧
        Json.loadableMembers kvs = true) := by
      simpa [Json.loadable, Json.loadableMembers] using hl
    have h1 := jsonDump_noCR v hx.2.1 (d + 1)
    have h2 := jsonDumpObjTail_noCR kvs hx.2.2 (d + 1)
    have h3 := jpad_noCR (d + 1)
    have h4 := jpad_noCR d
    have h5 := flatMap_escape_noCR k.data
    rw [jsonDump_obj_cons]
    simp only [List.mem_cons, List.mem_append, List.not_mem_nil, or_false, not_or]
    exact ⟨by decide, by decide, h3, by decide, h5, by decide, by decide, by decide,
      h1, h2, by decide, h4, by decide⟩

theorem jsonDumpArrTail_noCR : ∀ (xs : List Json), Json.loadableList xs = true →
    ∀ d : Nat, '\r' ∉ (jsonDumpArrTail d xs).data
  | [], _, d => by
    rw [jsonDumpArrTail_nil, data_empty]
    exact List.not_mem_nil _
  | y :: ys, hl, d => by
    have hy : Json.loadable y = true ∧ Json.loadableList ys = true := by
      simpa [Json.loadableList] using hl
    have h1 := jsonDump_noCR y hy.1 d
    have h2 := jsonDumpArrTail_noCR ys hy.2 d
    have h3 := jpad_noCR d
    rw [jsonDumpArrTail_cons]
    simp only [List.mem_cons, List.mem_append, List.not_mem_nil, or_false, not_or]
    exact ⟨by decide, by decide, h3, h1, h2⟩

theorem jsonDumpObjTail_noCR : ∀ (kvs : List (String × Json)),
    Json.loadableMembers kvs = true →
    ∀ d : Nat, '\r' ∉ (jsonDumpObjTail d kvs).data
  | [], _, d => by
    rw [jsonDumpObjTail_nil, data_empty]
    exact List.not_mem_nil _
  | (k2, v2) :: kvs2, hl, d => by
    have hy : Json.loadable v2 = true ∧ Json.loadableMembers kvs2 = true := by
      simpa [Json.loadableMembers] using hl
    have h1 := jsonDump_noCR v2 hy.1 d
    have h2 := jsonDumpObjTail_noCR kvs2 hy.2 d
    have h3 := jpad_noCR d
    have h5 := flatMap_escape_noCR k2.data
    rw [jsonDumpObjTail_cons]
    simp only [List.mem_cons, List.mem_append, List.not_mem_nil, or_false, not_or]
    exact ⟨by decide, by decide, h3, by decide, h5, by decide, by decide, by decide,
      h1, h2⟩

end

/-! ## `json.loads` inverts `json.dumps` -/

theorem jsonLoads_dumps (j : Json) (hl : Json.loadable j = true) :
    jsonLoads (jsonDumps j) = some j := by
  rw [jsonLoads]
  have hb : fuelVal j ≤ (jsonDumps j).data.length + 1 := by
    have := fuelVal_le_dump j hl 0
    simp only [jsonDumps]
    omega
  have h1 : jsonParseVal ((jsonDumps j).data.length + 1) ((jsonDumps j).data) =
      some (j, []) := by
    have h2 := jsonRT_val j 0 [] ((jsonDumps j).data.length + 1) hl hb
    simpa [jsonDumps] using h2
  rw [h1]
  simp [skipWs]

/-- Writing a loadable record as UTF-8 JSON and re-reading the file in text
mode yields the record back. -/
theorem readJsonFile_write (fs : FileSys) (out : String) (r : Json)
    (hl : Json.loadable r = true) :
    readJsonFile (fsWrite fs out (utf8Encode (jsonDumps r))) out = some r := by
  have hfs : fsWrite fs out (utf8Encode (jsonDumps r)) out =
      some (utf8Encode (jsonDumps r)) := by
    simp [fsWrite]
  rw [readJsonFile, hfs]
  dsimp only
  rw [decodeUtf8_utf8Encode]
  dsimp only
  rw [univNewlinesStr_noCR (jsonDumps r) (fun c hc he => jsonDump_noCR r hl 0 (he ▸ hc))]
  exact jsonLoads_dumps r hl

/-! ## Schema-valid records are loadable -/

theorem lookup_of_keysDistinct : ∀ (kvs : List (String × Json)),
    keysDistinct kvs = true → ∀ kv ∈ kvs, kvs.lookup kv.1 = some kv.2 := by
  intro kvs
  induction kvs with
  | nil => intro _ kv hm; cases hm
  | cons hd rest ih =>
    intro hdist kv hm
    obtain ⟨k, v⟩ := hd
    rcases List.mem_cons.1 hm with rfl | hm2
    · simp [List.lookup]
    · have hdist2 : keysDistinct rest = true := by
        simp only [keysDistinct, Bool.and_eq_true] at hdist
        exact hdist.2
      have hne : kv.1 ≠ k := by
        intro heq
        simp only [keysDistinct, Bool.and_eq_true, Bool.not_eq_true'] at hdist
        have hmem : k ∈ rest.map Prod.fst := List.mem_map.2 ⟨kv, hm2, heq⟩
        have hcontains : (rest.map Prod.fst).contains k = true := by
          simpa [List.contains] using List.elem_eq_true_of_mem hmem
        rw [hdist.1] at hcontains
        cases hcontains
      have hlk : List.lookup kv.1 ((k, v) :: rest) = List.lookup kv.1 rest := by
        have hbe : (kv.1 == k) = false := beq_eq_false_iff_ne.2 hne
        rw [List.lookup, hbe]
      rw [hlk]
      exact ih hdist2 kv hm2

theorem loadableList_of_forall : ∀ (xs : List Json),
    (∀ x ∈ xs, Json.loadable x = true) → Json.loadableList xs = true := by
  intro xs
  induction xs with
  | nil => intro _; rfl
  | cons x xs ih =>
    intro h
    have h1 : Json.loadableList (x :: xs) =
        (Json.loadable x && Json.loadableList xs) := by
      simp [Json.loadableList]
    rw [h1, h x (by simp), ih (fun y hy => h y (by simp [hy]))]
    rfl

theorem loadableMembers_of_forall : ∀ (kvs : List (String × Json)),
    (∀ kv ∈ kvs, Json.loadable kv.2 = true) → Json.loadableMembers kvs = true := by
  intro kvs
  induction kvs with
  | nil => intro _; rfl
  | cons kv kvs ih =>
    intro h
    obtain ⟨k, v⟩ := kv
    have h1 : Json.loadableMembers ((k, v) :: kvs) =
        (Json.loadable v && Json.loadableMembers kvs) := by
      simp [Json.loadableMembers]
    rw [h1, h (k, v) (by simp), ih (fun y hy => h y (by simp [hy]))]
    rfl

theorem objMatches_loadable (kvs : List (String × Json))
    (fields : List (String × (Json → Bool)))
    (hfields : ∀ f ∈ fields, ∀ v, f.2 v = true → Json.loadable v = true)
    (h : objMatches kvs fields = true) : Json.loadable (.obj kvs) = true := by
  simp only [objMatches, Bool.and_eq_true] at h
  obtain ⟨⟨hdist, hkeys⟩, htypes⟩ := h
  have hmem : ∀ kv ∈ kvs, Json.loadable kv.2 = true := by
    intro kv hm
    have hkey : (fields.map Prod.fst).contains kv.1 = true :=
      (List.all_eq_true.1 hkeys) kv hm
    have hkey2 : kv.1 ∈ fields.map Prod.fst := by
      have := hkey
      simp only [List.contains] at this
      exact List.elem_iff.1 this
    obtain ⟨f, hf, hfeq⟩ := List.mem_map.1 hkey2
    have hlook := (List.all_eq_true.1 htypes) f hf
    rw [hfeq, lookup_of_keysDistinct kvs hdist kv hm] at hlook
    exact hfields f hf kv.2 hlook
  have h2 : Json.loadable (.obj kvs) =
      (keysDistinct kvs && Json.loadableMembers kvs) := by
    simp [Json.loadable]
  rw [h2, hdist, loadableMembers_of_forall kvs hmem]
  rfl

theorem isStr_loadable : ∀ v : Json, Json.isStr v = true → Json.loadable v = true := by
  intro v
  cases v <;> simp [Json.isStr, Json.loadable]

theorem isStrOrNull_loadable : ∀ v : Json, Json.isStrOrNull v = true →
    Json.loadable v = true := by
  intro v
  cases v <;> simp [Json.isStrOrNull, Json.loadable]

theorem isArrayOf_loadable (p : Json → Bool)
    (hp : ∀ x, p x = true → Json.loadable x = true) :
    ∀ v : Json, Json.isArrayOf p v = true → Json.loadable v = true := by
  intro v hv
  cases v with
  | arr xs =>
    have hall : ∀ x ∈ xs, Json.loadable x = true := by
      intro x hm
      exact hp x ((List.all_eq_true.1 (by simpa [Json.isArrayOf] using hv)) x hm)
    have h2 : Json.loadable (.arr xs) = Json.loadableList xs := by
      simp [Json.loadable]
    rw [h2]
    exact loadableList_of_forall xs hall
  | null => simp [Json.isArrayOf] at hv
  | bool b => simp [Json.isArrayOf] at hv
  | num n => simp [Json.isArrayOf] at hv
  | str s => simp [Json.isArrayOf] at hv
  | obj kvs => simp [Json.isArrayOf] at hv

theorem isStrArray_loadable : ∀ v : Json, Json.isStrArray v = true →
    Json.loadable v = true :=
  isArrayOf_loadable Json.isStr isStr_loadable

theorem expEntryValid_loadable : ∀ v : Json, expEntryValid v = true →
    Json.loadable v = true := by
  intro v hv
  cases v with
  | obj kvs =>
    refine objMatches_loadable kvs _ ?_ (by simpa [expEntryValid] using hv)
    intro f hf
    simp only [List.mem_cons, List.not_mem_nil, or_false] at hf
    rcases hf with rfl | rfl | rfl | rfl
    · exact isStr_loadable
    · exact isStrOrNull_loadable
    · exact isStrOrNull_loadable
    · exact isStrArray_loadable
  | null => simp [expEntryValid] at hv
  | bool b => simp [expEntryValid] at hv
  | num n => simp [expEntryValid] at hv
  | str s => simp [expEntryValid] at hv
  | arr xs => simp [expEntryValid] at hv

theorem eduEntryValid_loadable : ∀ v : Json, eduEntryValid v = true →
    Json.loadable v = true := by
  intro v hv
  cases v with
  | obj kvs =>
    refine objMatches_loadable kvs _ ?_ (by simpa [eduEntryValid] using hv)
    intro f hf
    simp only [List.mem_cons, List.not_mem_nil, or_false] at hf
    rcases hf with rfl | rfl | rfl | rfl
    all_goals exact isStrOrNull_loadable
  | null => simp [eduEntryValid] at hv
  | bool b => simp [eduEntryValid] at hv
  | num n => simp [eduEntryValid] at hv
  | str s => simp [eduEntryValid] at hv
  | arr xs => simp [eduEntryValid] at hv

/-- Every record the resume schema admits is loadable: no floats, and no
duplicate keys at any level. -/
theorem resumeSchemaValid_loadable (r : Json) (h : resumeSchemaValid r = true) :
    Json.loadable r = true := by
  cases r with
  | obj kvs =>
    refine objMatches_loadable kvs _ ?_ (by simpa [resumeSchemaValid] using h)
    intro f hf
    simp only [List.mem_cons, List.not_mem_nil, or_false] at hf
    rcases hf with rfl | rfl | rfl | rfl | rfl | rfl | rfl | rfl | rfl | rfl | rfl
    · exact isStr_loadable
    · exact isStrOrNull_loadable
    · exact isStrOrNull_loadable
    · exact isStrOrNull_loadable
    · exact isStrOrNull_loadable
    · exact isStrArray_loadable
    · exact isArrayOf_loadable expEntryValid expEntryValid_loadable
    · exact isArrayOf_loadable eduEntryValid eduEntryValid_loadable
    · exact isStrArray_loadable
    · exact isStrArray_loadable
    · exact isStr_loadable
  | null => simp [resumeSchemaValid] at h
  | bool b => simp [resumeSchemaValid] at h
  | num n => simp [resumeSchemaValid] at h
  | str s => simp [resumeSchemaValid] at h
  | arr xs => simp [resumeSchemaValid] at h

/-! ## Remaining helpers for the claim theorems -/

theorem pyStrip_of_all_space (t : String) (h : t.data.all pyIsSpace = true) :
    pyStrip t = "" := by
  have h1 : t.data.dropWhile pyIsSpace = [] :=
    List.dropWhile_eq_nil_iff.2 (fun x hx => List.all_eq_true.1 h x hx)
  rw [pyStrip, h1]
  rfl

theorem string_foldl_join : ∀ (ys : List String) (a : String),
    ys.foldl (fun r s => r ++ s) a = a ++ String.join ys := by
  intro ys
  induction ys with
  | nil => intro a; exact (String.append_empty a).symm
  | cons y ys ih =>
    intro a
    rw [List.foldl_cons, ih (a ++ y)]
    have h1 : String.join (y :: ys) = y ++ String.join ys := by
      have h2 : String.join (y :: ys) = List.foldl (fun r s => r ++ s) y ys := rfl
      rw [h2, ih y]
    rw [h1, String.append_assoc]

theorem string_join_cons (y : String) (ys : List String) :
    String.join (y :: ys) = y ++ String.join ys := by
  have h2 : String.join (y :: ys) = List.foldl (fun r s => r ++ s) y ys := rfl
  rw [h2, string_foldl_join ys y]

theorem foldl_append_join {α : Type} (g : α → String) (l : List α) :
    ∀ a : String, l.foldl (fun acc x => acc ++ g x) a = a ++ String.join (l.map g) := by
  induction l with
  | nil => intro a; exact (String.append_empty a).symm
  | cons x xs ih =>
    intro a
    rw [List.foldl_cons, ih (a ++ g x), List.map_cons, string_join_cons,
      String.append_assoc]

/-! ## The claims -/

/-- C1: the driver writes nothing on any failure: every run either returns
an error with the filesystem unchanged, or returns the output path with the
filesystem updated at exactly that path by the serialized record. -/
theorem C1_no_partial_output (caps : ExtractCaps) (env : LlmEnv) (fs : FileSys)
    (up out : String) :
    (∃ e n, parse_any_resume_to_json caps env fs up out = (.error e, fs, n)) ∨
    (∃ r n, parse_any_resume_to_json caps env fs up out =
      (.ok out, fsWrite fs out (utf8Encode (jsonDumps r)), n)) := by
  cases hex : extract_text caps fs up with
  | error e => exact .inl ⟨e, 0, by simp [parse_any_resume_to_json, hex]⟩
  | ok text =>
    by_cases hb : text = "" ∨ pyStrip text = ""
    · exact .inl ⟨.valueError "No text extracted (consider OCR for scanned PDFs).",
        0, by simp [parse_any_resume_to_json, hex, hb]⟩
    · cases hm : llm_extract_resume env text with
      | mk res n =>
        cases res with
        | error e =>
          exact .inl ⟨e, n, by simp [parse_any_resume_to_json, hex, hb, hm]⟩
        | ok r =>
          exact .inr ⟨r, n, by simp [parse_any_resume_to_json, hex, hb, hm]⟩

/-- C2 counterexample: the `.doc` branch decodes with `errors="ignore"`,
which drops the invalid byte `0xFF` instead of substituting U+FFFD: the
result is `"AB"`, not `"A�B"`. -/
theorem C2_counterexample :
    extract_text ⟨none, none, none, some (fun _ => .ok [0x41, 0xFF, 0x42])⟩
      (fun _ => none) "cv.doc" = .ok "AB" ∧ ("AB" : String) ≠ "A�B" :=
  ⟨rfl, by decide⟩

/-- C2 (amended): the `.doc` branch never raises on bad bytes — it returns
the `errors="ignore"` decode of the capability's byte output, which agrees
with strict UTF-8 on valid input but drops (rather than replaces) invalid
sequences. -/
theorem C2_doc_decode_ignore (caps : ExtractCaps) (fs : FileSys) (p : String)
    (process : String → Except PyErr Bytes) (bs : Bytes)
    (hsfx : asciiLower (pathSuffix p) = ".doc")
    (hcap : caps.textract = some process)
    (hp : process p = .ok bs) :
    extract_text caps fs p = .ok (decodeUtf8Ignore bs) ∧
    (∀ s, decodeUtf8 bs = some s → decodeUtf8Ignore bs = s) :=
  ⟨extract_text_doc caps fs p process bs hsfx hcap hp,
   fun s hs => decodeUtf8Ignore_of_strict bs s hs⟩

theorem C2_witness :
    asciiLower (pathSuffix "cv.doc") = ".doc" ∧
    (⟨none, none, none, some (fun _ => .ok [0x41, 0xC3, 0xA9])⟩ :
        ExtractCaps).textract = some (fun _ => .ok [0x41, 0xC3, 0xA9]) ∧
    (extract_text ⟨none, none, none, some (fun _ => .ok [0x41, 0xC3, 0xA9])⟩
        (fun _ => none) "cv.doc" = .ok (decodeUtf8Ignore [0x41, 0xC3, 0xA9]) ∧
      (∀ s, decodeUtf8 [0x41, 0xC3, 0xA9] = some s →
        decodeUtf8Ignore [0x41, 0xC3, 0xA9] = s)) :=
  ⟨rfl, rfl,
   C2_doc_decode_ignore ⟨none, none, none, some (fun _ => .ok [0x41, 0xC3, 0xA9])⟩
     (fun _ => none) "cv.doc" (fun _ => .ok [0x41, 0xC3, 0xA9]) [0x41, 0xC3, 0xA9]
     rfl rfl rfl⟩

/-- C4: when extraction succeeds with an empty or all-whitespace string,
the driver fails with exactly the `ValueError` hinting at OCR, leaves the
filesystem unchanged, and never invokes the client (zero remote calls). -/
theorem C4_empty_content (caps : ExtractCaps) (env : LlmEnv) (fs : FileSys)
    (up out : String) (t : String)
    (hex : extract_text caps fs up = .ok t)
    (hblank : t.data.all pyIsSpace = true) :
    parse_any_resume_to_json caps env fs up out =
      (.error (.valueError "No text extracted (consider OCR for scanned PDFs)."),
        fs, 0) := by
  have hstrip : pyStrip t = "" := pyStrip_of_all_space t hblank
  simp [parse_any_resume_to_json, hex, hstrip]

theorem C4_witness :
    extract_text ⟨none, none, none, none⟩
        (fun q => if q = "cv.txt" then some [] else none) "cv.txt" = .ok "" ∧
    ("" : String).data.all pyIsSpace = true ∧
    parse_any_resume_to_json ⟨none, none, none, none⟩ sampleEnv
        (fun q => if q = "cv.txt" then some [] else none) "cv.txt" "out.json" =
      (.error (.valueError "No text extracted (consider OCR for scanned PDFs)."),
        (fun q => if q = "cv.txt" then some [] else none), 0) :=
  ⟨rfl, rfl,
   C4_empty_content ⟨none, none, none, none⟩ sampleEnv
     (fun q => if q = "cv.txt" then some [] else none) "cv.txt" "out.json" "" rfl rfl⟩

/-- C3 counterexample: a `.txt` file holding `"A"` encoded as UTF-16 does
not round-trip: the bytes decode successfully under the earlier Latin-1
candidate, so extraction returns `"ÿþA\x00"`, not `"A"`. -/
theorem C3_counterexample :
    extract_text ⟨none, none, none, none⟩
        (fun q => if q = "cv.txt" then some (encodeUtf16 "A") else none) "cv.txt" =
      .ok "ÿþA\x00" ∧ ("ÿþA\x00" : String) ≠ "A" :=
  ⟨rfl, by decide⟩

/-- C3 (amended): on a `.txt` file the UTF-8 encoding of a
carriage-return-free string round-trips, and the Latin-1 encoding
round-trips whenever strict UTF-8 decoding rejects the bytes (UTF-8 is
tried first); the UTF-16 (and CP1252/ISO-8859-1) candidates are shadowed
by Latin-1 and cannot round-trip a BOM-prefixed file. -/
theorem C3_txt_utf8_latin1_roundtrip (caps : ExtractCaps) (fs : FileSys)
    (p s : String)
    (hsfx : asciiLower (pathSuffix p) = ".txt")
    (hcr : ∀ c ∈ s.data, c ≠ '\r') :
    (fs p = some (utf8Encode s) → extract_text caps fs p = .ok s) ∧
    (∀ bs, fs p = some bs → encodeLatin1 s = some bs → decodeUtf8 bs = none →
      extract_text caps fs p = .ok s) := by
  constructor
  · intro hfs
    rw [extract_text_txt caps fs p (utf8Encode s) hsfx hfs,
      txtExtract_two_candidates, decodeUtf8_utf8Encode]
    dsimp only
    rw [univNewlinesStr_noCR s hcr]
  · intro bs hfs henc hnone
    rw [extract_text_txt caps fs p bs hsfx hfs, txtExtract_two_candidates, hnone]
    dsimp only
    have hdec : latin1DecodeList bs = s.data := latin1DecodeList_encode s.data bs henc
    rw [hdec]
    have hmk : String.mk s.data = s := rfl
    rw [hmk, univNewlinesStr_noCR s hcr]

theorem C3_witness :
    asciiLower (pathSuffix "cv.txt") = ".txt" ∧
    (∀ c ∈ ("Aé" : String).data, c ≠ '\r') ∧
    (((fun q => if q = "cv.txt" then some (utf8Encode "Aé") else none) "cv.txt" =
        some (utf8Encode "Aé") →
      extract_text ⟨none, none, none, none⟩
        (fun q => if q = "cv.txt" then some (utf8Encode "Aé") else none) "cv.txt" =
          .ok "Aé") ∧
      (∀ bs, (fun q => if q = "cv.txt" then some (utf8Encode "Aé") else none) "cv.txt" =
          some bs →
        encodeLatin1 "Aé" = some bs → decodeUtf8 bs = none →
        extract_text ⟨none, none, none, none⟩
          (fun q => if q = "cv.txt" then some (utf8Encode "Aé") else none) "cv.txt" =
            .ok "Aé")) :=
  ⟨rfl, by decide,
   C3_txt_utf8_latin1_roundtrip ⟨none, none, none, none⟩
     (fun q => if q = "cv.txt" then some (utf8Encode "Aé") else none)
     "cv.txt" "Aé" rfl (by decide)⟩

/-- C5: the dispatch of `extract_text` depends on the path only through
its lowercased `pathlib` suffix (given equal capability and filesystem
behaviour at the two paths, the results coincide), and any suffix outside
`.pdf`/`.docx`/`.doc`/`.txt` is rejected with the `ValueError` naming the
offending extension and the supported set. -/
theorem C5_dispatch (caps : ExtractCaps) (fs : FileSys) (p q : String)
    (hsame : asciiLower (pathSuffix p) = asciiLower (pathSuffix q))
    (hfitz : caps.fitz.map (fun g => g p) = caps.fitz.map (fun g => g q))
    (hpypdf : caps.pypdf2.map (fun g => g p) = caps.pypdf2.map (fun g => g q))
    (hdocx : caps.docx.map (fun g => g p) = caps.docx.map (fun g => g q))
    (htextract : caps.textract.map (fun g => g p) = caps.textract.map (fun g => g q))
    (hfs : fs p = fs q) :
    (extract_text caps fs p = extract_text caps fs q ∨
      (extract_text caps fs p = .error (.fileNotFound p) ∧
        extract_text caps fs q = .error (.fileNotFound q))) ∧
    (asciiLower (pathSuffix p) ∉ ([".pdf", ".docx", ".doc", ".txt"] : List String) →
      extract_text caps fs p = .error (.valueError ("Unsupported file type: " ++
        asciiLower (pathSuffix p) ++ " (supported: .pdf, .docx, .doc, .txt)"))) := by
  constructor
  · by_cases h4 : asciiLower (pathSuffix p) = ".txt"
    · have h4q : asciiLower (pathSuffix q) = ".txt" := hsame.symm.trans h4
      cases hq : fs q with
      | some bs =>
        have hp2 : fs p = some bs := by rw [hfs, hq]
        exact .inl (by
          rw [extract_text_txt caps fs p bs h4 hp2,
            extract_text_txt caps fs q bs h4q hq])
      | none =>
        have hp2 : fs p = none := by rw [hfs, hq]
        refine .inr ⟨?_, ?_⟩
        · simp [extract_text, h4, hp2]
        · simp [extract_text, h4q, hq]
    · refine .inl ?_
      simp only [extract_text]
      rw [← hsame]
      by_cases h1 : asciiLower (pathSuffix p) = ".pdf"
      · rw [if_pos h1, if_pos h1]
        cases hf : caps.fitz with
        | some g =>
          rw [hf] at hfitz
          simp only [Option.map_some', Option.some.injEq] at hfitz
          simp [hfitz]
        | none =>
          cases h2 : caps.pypdf2 with
          | some g =>
            rw [h2] at hpypdf
            simp only [Option.map_some', Option.some.injEq] at hpypdf
            simp [hpypdf]
          | none => rfl
      · rw [if_neg h1, if_neg h1]
        by_cases h2 : asciiLower (pathSuffix p) = ".docx"
        · rw [if_pos h2, if_pos h2]
          cases hd : caps.docx with
          | some g =>
            rw [hd] at hdocx
            simp only [Option.map_some', Option.some.injEq] at hdocx
            simp [hdocx]
          | none => rfl
        · rw [if_neg h2, if_neg h2]
          by_cases h3 : asciiLower (pathSuffix p) = ".doc"
          · rw [if_pos h3, if_pos h3]
            cases ht : caps.textract with
            | some g =>
              rw [ht] at htextract
              simp only [Option.map_some', Option.some.injEq] at htextract
              simp [htextract]
            | none => rfl
          · rw [if_neg h3, if_neg h3, if_neg h4, if_neg h4]
  · intro hns
    simp only [List.mem_cons, List.not_mem_nil, or_false, not_or] at hns
    obtain ⟨h1, h2, h3, h4⟩ := hns
    exact extract_text_unsupported caps fs p h1 h2 h3 h4

theorem C5_witness :
    asciiLower (pathSuffix "a.PNG") = asciiLower (pathSuffix "b/x.png") ∧
    asciiLower (pathSuffix "a.PNG") ∉ ([".pdf", ".docx", ".doc", ".txt"] : List String) ∧
    ((extract_text ⟨none, none, none, none⟩ (fun _ => none) "a.PNG" =
        extract_text ⟨none, none, none, none⟩ (fun _ => none) "b/x.png" ∨
      (extract_text ⟨none, none, none, none⟩ (fun _ => none) "a.PNG" =
          .error (.fileNotFound "a.PNG") ∧
        extract_text ⟨none, none, none, none⟩ (fun _ => none) "b/x.png" =
          .error (.fileNotFound "b/x.png"))) ∧
      (asciiLower (pathSuffix "a.PNG") ∉
          ([".pdf", ".docx", ".doc", ".txt"] : List String) →
        extract_text ⟨none, none, none, none⟩ (fun _ => none) "a.PNG" =
          .error (.valueError ("Unsupported file type: " ++
            asciiLower (pathSuffix "a.PNG") ++
            " (supported: .pdf, .docx, .doc, .txt)")))) :=
  ⟨rfl, by decide,
   C5_dispatch ⟨none, none, none, none⟩ (fun _ => none) "a.PNG" "b/x.png"
     rfl rfl rfl rfl rfl rfl⟩

/-- C6: with the client library importable but no `OPENAI_API_KEY` in the
environment, `llm_extract_resume` fails with the `RuntimeError` naming the
missing credential, making zero remote calls whatever the endpoint would
answer. -/
theorem C6_missing_credential (env : LlmEnv) (text : String)
    (hav : env.openaiAvailable = true) (hkey : env.apiKey = none) :
    llm_extract_resume env text =
      (.error (.runtimeError "OPENAI_API_KEY not set in environment."), 0) := by
  simp [llm_extract_resume, hav, hkey, keyFalsy]

theorem C6_witness :
    (⟨true, none, fun _ => .error (.runtimeError "network down")⟩ :
      LlmEnv).openaiAvailable = true ∧
    (⟨true, none, fun _ => .error (.runtimeError "network down")⟩ :
      LlmEnv).apiKey = none ∧
    llm_extract_resume ⟨true, none, fun _ => .error (.runtimeError "network down")⟩
        "hello" =
      (.error (.runtimeError "OPENAI_API_KEY not set in environment."), 0) :=
  ⟨rfl, rfl,
   C6_missing_credential ⟨true, none, fun _ => .error (.runtimeError "network down")⟩
     "hello" rfl rfl⟩

/-- C7: DOCX extraction returns the paragraphs joined by newlines followed
by every table's rows in order, each row contributing a newline plus its
tab-joined cells — all table text after all paragraph text. -/
theorem C7_docx (caps : ExtractCaps) (fs : FileSys) (p : String)
    (openDoc : String → Except PyErr DocxDocument) (d : DocxDocument)
    (hsfx : asciiLower (pathSuffix p) = ".docx") (hcap : caps.docx = some openDoc)
    (hp : openDoc p = .ok d) :
    extract_text caps fs p = .ok (docxRender d) ∧
    docxRender d = String.intercalate "\n" d.paragraphs ++
      String.join (d.tables.map (fun table =>
        String.join (table.rows.map
          (fun row => "\n" ++ String.intercalate "\t" row)))) := by
  refine ⟨extract_text_docx caps fs p openDoc d hsfx hcap hp, ?_⟩
  have hstep : ∀ (a : String) (t : DocxTable),
      t.rows.foldl (fun text row => text ++ "\n" ++ String.intercalate "\t" row) a =
        a ++ String.join (t.rows.map
          (fun row => "\n" ++ String.intercalate "\t" row)) := by
    intro a t
    have hfun : (fun (text : String) (row : List String) =>
        text ++ "\n" ++ String.intercalate "\t" row) =
        fun text row => text ++ ("\n" ++ String.intercalate "\t" row) := by
      funext text row
      rw [String.append_assoc]
    rw [hfun]
    exact foldl_append_join (fun row => "\n" ++ String.intercalate "\t" row) t.rows a
  have houter : ∀ (tables : List DocxTable) (a : String),
      tables.foldl (fun text table =>
          table.rows.foldl
            (fun text row => text ++ "\n" ++ String.intercalate "\t" row) text) a =
        a ++ String.join (tables.map (fun table =>
          String.join (table.rows.map
            (fun row => "\n" ++ String.intercalate "\t" row)))) := by
    intro tables
    induction tables with
    | nil => intro a; exact (String.append_empty a).symm
    | cons t ts ih =>
      intro a
      rw [List.foldl_cons, hstep, ih, List.map_cons, string_join_cons,
        String.append_assoc]
  simp only [docxRender]
  exact houter d.tables (String.intercalate "\n" d.paragraphs)

theorem C7_witness :
    asciiLower (pathSuffix "cv.docx") = ".docx" ∧
    (extract_text
        ⟨none, none, some (fun _ => .ok ⟨["p1", "p2"], [⟨[["a", "b"], ["c", "d"]]⟩]⟩),
          none⟩ (fun _ => none) "cv.docx" =
        .ok (docxRender ⟨["p1", "p2"], [⟨[["a", "b"], ["c", "d"]]⟩]⟩) ∧
      docxRender ⟨["p1", "p2"], [⟨[["a", "b"], ["c", "d"]]⟩]⟩ =
        String.intercalate "\n" ["p1", "p2"] ++
          String.join (([⟨[["a", "b"], ["c", "d"]]⟩] : List DocxTable).map (fun table =>
            String.join (table.rows.map
              (fun row => "\n" ++ String.intercalate "\t" row))))) ∧
    docxRender ⟨["p1", "p2"], [⟨[["a", "b"], ["c", "d"]]⟩]⟩ = "p1\np2\na\tb\nc\td" :=
  ⟨rfl,
   C7_docx ⟨none, none, some (fun _ => .ok ⟨["p1", "p2"], [⟨[["a", "b"], ["c", "d"]]⟩]⟩),
       none⟩ (fun _ => none) "cv.docx"
     (fun _ => .ok ⟨["p1", "p2"], [⟨[["a", "b"], ["c", "d"]]⟩]⟩)
     ⟨["p1", "p2"], [⟨[["a", "b"], ["c", "d"]]⟩]⟩ rfl rfl rfl,
   rfl⟩

/-- C8: when extraction yields non-blank text and the client returns a
schema-valid record, the driver writes exactly the UTF-8 serialization of
the record (two-space indent, non-ASCII characters kept literally by the
escaper) at the output path and returns that path; re-reading and parsing
the written file yields the record back. -/
theorem C8_roundtrip (caps : ExtractCaps) (env : LlmEnv) (fs : FileSys)
    (up out : String) (t : String) (r : Json) (n : Nat)
    (hex : extract_text caps fs up = .ok t)
    (hnb : pyStrip t ≠ "")
    (hllm : llm_extract_resume env t = (.ok r, n))
    (hval : resumeSchemaValid r = true) :
    parse_any_resume_to_json caps env fs up out =
      (.ok out, fsWrite fs out (utf8Encode (jsonDumps r)), n) ∧
    readJsonFile (fsWrite fs out (utf8Encode (jsonDumps r))) out = some r ∧
    (∀ c : Char, 0x7F < c.toNat → jsonEscapeChar c = [c]) := by
  have ht : ¬(t = "" ∨ pyStrip t = "") := by
    rintro (rfl | h2)
    · exact hnb rfl
    · exact hnb h2
  refine ⟨?_, readJsonFile_write fs out r (resumeSchemaValid_loadable r hval), ?_⟩
  · simp [parse_any_resume_to_json, hex, ht, hllm]
  · intro c hc
    simp only [jsonEscapeChar]
    split_ifs with h1 h2 h3 h4 h5 h6 h7 h8
    · exact absurd hc (by rw [h1]; decide)
    · exact absurd hc (by rw [h2]; decide)
    · exact absurd hc (by rw [h3]; decide)
    · exact absurd hc (by rw [h4]; decide)
    · exact absurd hc (by rw [h5]; decide)
    · exact absurd hc (by rw [h6]; decide)
    · exact absurd hc (by rw [h7]; decide)
    · exact absurd hc (by omega)
    · rfl

theorem C8_witness :
    extract_text ⟨none, none, none, none⟩ sampleFs "cv.txt" = .ok "Hi" ∧
    pyStrip "Hi" ≠ "" ∧
    llm_extract_resume sampleEnv "Hi" = (.ok sampleRecord, 1) ∧
    resumeSchemaValid sampleRecord = true ∧
    (parse_any_resume_to_json ⟨none, none, none, none⟩ sampleEnv sampleFs
        "cv.txt" "out.json" =
      (.ok "out.json", fsWrite sampleFs "out.json" (utf8Encode (jsonDumps sampleRecord)),
        1) ∧
      readJsonFile (fsWrite sampleFs "out.json" (utf8Encode (jsonDumps sampleRecord)))
        "out.json" = some sampleRecord ∧
      (∀ c : Char, 0x7F < c.toNat → jsonEscapeChar c = [c])) :=
  ⟨rfl, by decide, rfl, rfl,
   C8_roundtrip ⟨none, none, none, none⟩ sampleEnv sampleFs "cv.txt" "out.json"
     "Hi" sampleRecord 1 rfl (by decide) rfl rfl⟩

/-- C9: with the library importable and a credential set, a response whose
content is not valid JSON makes `llm_extract_resume` fail with the
`json.JSONDecodeError` carrying the raw text, after exactly one remote
call. -/
theorem C9_malformed_response (env : LlmEnv) (text raw : String)
    (hav : env.openaiAvailable = true)
    (hkey : keyFalsy env.apiKey = false)
    (hresp : ∀ req : ChatRequest, env.respond req = .ok raw)
    (hbad : jsonLoads raw = none) :
    llm_extract_resume env text = (.error (.jsonDecodeError raw), 1) := by
  simp [llm_extract_resume, hav, hkey, hresp, hbad]

theorem C9_witness :
    (⟨true, some "sk", fun _ => .ok "not json"⟩ : LlmEnv).openaiAvailable = true ∧
    keyFalsy (some "sk") = false ∧
    jsonLoads "not json" = none ∧
    llm_extract_resume ⟨true, some "sk", fun _ => .ok "not json"⟩ "hello" =
      (.error (.jsonDecodeError "not json"), 1) :=
  ⟨rfl, rfl, rfl,
   C9_malformed_response ⟨true, some "sk", fun _ => .ok "not json"⟩ "hello"
     "not json" rfl rfl (fun _ => rfl) rfl⟩

/-- C10: a readable `.txt` file never produces a decode error: extraction
returns `.ok` on every byte sequence, Latin-1 decoding accepts every byte
sequence, and the result is decided by the first two candidates alone —
the CP1252, ISO-8859-1 and UTF-16 candidates and the binary fallback are
unreachable. -/
theorem C10_txt_total (caps : ExtractCaps) (fs : FileSys) (p : String) (bs : Bytes)
    (hsfx : asciiLower (pathSuffix p) = ".txt") (hfs : fs p = some bs) :
    extract_text caps fs p = .ok (txtExtract bs) ∧
    decodeLatin1 bs = some (String.mk (latin1DecodeList bs)) ∧
    txtExtract bs = (match decodeUtf8 bs with
      | some s => univNewlinesStr s
      | none => univNewlinesStr (String.mk (latin1DecodeList bs))) :=
  ⟨extract_text_txt caps fs p bs hsfx hfs, rfl, txtExtract_two_candidates bs⟩

theorem C10_witness :
    asciiLower (pathSuffix "cv.txt") = ".txt" ∧
    (fun q => if q = "cv.txt" then some [0xFF] else none) "cv.txt" = some [0xFF] ∧
    (extract_text ⟨none, none, none, none⟩
        (fun q => if q = "cv.txt" then some [0xFF] else none) "cv.txt" =
        .ok (txtExtract [0xFF]) ∧
      decodeLatin1 [0xFF] = some (String.mk (latin1DecodeList [0xFF])) ∧
      txtExtract [0xFF] = (match decodeUtf8 [0xFF] with
        | some s => univNewlinesStr s
        | none => univNewlinesStr (String.mk (latin1DecodeList [0xFF])))) ∧
    txtExtract [0xFF] = "ÿ" :=
  ⟨rfl, rfl,
   C10_txt_total ⟨none, none, none, none⟩
     (fun q => if q = "cv.txt" then some [0xFF] else none) "cv.txt" [0xFF] rfl rfl,
   rfl⟩

end CvParser
